import Mathlib

/-!
Verification development for the subtitle-translator core: the subtitle
codec (SubRip / WebVTT / AdvancedSubStation), the batch splitter, the
translation-response parser, the retry executor, provider auto-detection,
the whisper provider stub and the merge loop of the translate command.

Every definition below is a shallow embedding of the corresponding
TypeScript function, translated statement by statement.  Strings are
modelled as `String` (whose underlying representation is `List Char`);
most of the work happens on `List Char`, mirroring JavaScript string
scanning.  JavaScript `number` values that are used as integers are
modelled as `Int` (or `Nat` where the source guarantees non-negativity).
Regular expressions used by the source are modelled by hand-written
scanners that implement the exact leftmost-match semantics of the
specific patterns appearing in the source.
-/

set_option maxHeartbeats 1000000

/-- The `Subtitle` interface from `subtitles.ts`: a caption with a numeric
index, two timestamp strings and a text payload. -/
structure Subtitle where
  index : Int
  startTime : String
  endTime : String
  text : String
deriving DecidableEq, Repr

instance : Inhabited Subtitle := ⟨⟨0, "", "", ""⟩⟩

/-- The `SubtitleFormat` union type (`srt | vtt | ass`). -/
inductive SubtitleFormat where
  | srt
  | vtt
  | ass
deriving DecidableEq, Repr

/-! ### Generic character-list helpers (JavaScript string primitives) -/

/-- JavaScript `String.prototype.startsWith`, on character lists. -/
def listStartsWith : List Char → List Char → Bool
  | [], _ => true
  | _ :: _, [] => false
  | p :: ps, c :: cs => p == c && listStartsWith ps cs

/-- JavaScript `String.prototype.includes`, on character lists: the pattern
occurs as a contiguous segment. -/
def listContainsSeq (pat : List Char) : List Char → Bool
  | [] => pat.isEmpty
  | c :: cs => listStartsWith pat (c :: cs) || listContainsSeq pat cs

/-- JavaScript `s.includes(sub)`. -/
def strIncludes (s sub : String) : Bool := listContainsSeq sub.data s.data

/-- JavaScript `s.startsWith(p)`. -/
def strStartsWith (s p : String) : Bool := listStartsWith p.data s.data

/-- JavaScript `String.prototype.trim`, on character lists (ASCII whitespace;
the JS version also trims some exotic Unicode whitespace, which no caller
in this code base depends on). -/
def trimList (cs : List Char) : List Char :=
  ((cs.dropWhile Char.isWhitespace).reverse.dropWhile Char.isWhitespace).reverse

/-- JavaScript `str.split(sep)` for a single-character separator. -/
def splitCharAux (sep : Char) : List Char → List Char → List (List Char)
  | [], acc => [acc.reverse]
  | c :: rest, acc =>
    if c = sep then acc.reverse :: splitCharAux sep rest []
    else splitCharAux sep rest (c :: acc)

/-- JavaScript `str.split(sep)` for a single-character separator. -/
def splitChar (sep : Char) (cs : List Char) : List (List Char) :=
  splitCharAux sep cs []

/-- JavaScript `arr.join(sep)` for a single-character separator string. -/
def joinSep (sep : Char) : List (List Char) → List Char
  | [] => []
  | [b] => b
  | b :: bs => b ++ sep :: joinSep sep bs

/-- JavaScript `s.replace(t, r)` with single-character string arguments:
replaces only the first occurrence. -/
def replaceFirst (t r : Char) : List Char → List Char
  | [] => []
  | c :: cs => if c = t then r :: cs else c :: replaceFirst t r cs

/-- Numeric value of a list of decimal digit characters (the value JavaScript
`parseInt` computes once the digit run has been isolated). -/
def digitsVal (cs : List Char) : Nat :=
  cs.foldl (fun a c => 10 * a + (c.toNat - 48)) 0

/-- Decimal digit characters of a natural number, as produced by JavaScript
number-to-string conversion.  The first argument is recursion fuel; `n + 1`
is always enough for `n`. -/
def natDigitsAux : Nat → Nat → List Char → List Char
  | 0, _, acc => acc
  | fuel + 1, n, acc =>
    let d := Char.ofNat (48 + n % 10)
    if n < 10 then d :: acc else natDigitsAux fuel (n / 10) (d :: acc)

/-- Decimal digit characters of a natural number (JavaScript `String(n)` for
a non-negative integer). -/
def natDigits (n : Nat) : List Char := natDigitsAux (n + 1) n []

/-- JavaScript `s.padStart(2, '0')`. -/
def padStart2 (cs : List Char) : List Char :=
  if cs.length < 2 then List.replicate (2 - cs.length) '0' ++ cs else cs

/-- The digit-run part of JavaScript `parseInt(s, 10)`: `none` models `NaN`. -/
def parseDigits (cs : List Char) : Option Nat :=
  let ds := cs.takeWhile Char.isDigit
  if ds = [] then none else some (digitsVal ds)

/-- JavaScript `parseInt(s, 10)`: skip leading whitespace, optional sign,
then a digit run; `none` models `NaN`. -/
def jsParseInt (cs : List Char) : Option Int :=
  match cs.dropWhile Char.isWhitespace with
  | '-' :: rest => (parseDigits rest).map (fun n => -(n : Int))
  | '+' :: rest => (parseDigits rest).map (fun n => (n : Int))
  | other => (parseDigits other).map (fun n => (n : Int))

/-! ### Batcher (`batchSubtitles` in `subtitles.ts`) -/

/-- Total text length of a batch, as accumulated by `batchSubtitles`. -/
def charSum (b : List Subtitle) : Nat := (b.map (fun s => s.text.length)).sum

/-- The loop body of `batchSubtitles`: the source iterates over the captions
keeping `batches`, `currentBatch` and `currentChars`; when the next caption
would overflow the current batch it pushes the batch and then appends the
caption to a fresh batch, which is fused here into a single step. -/
def batchLoop (batchSize maxChars : Nat) :
    List Subtitle → List (List Subtitle) → List Subtitle → Nat → List (List Subtitle)
  | [], batches, cur, _ => if 0 < cur.length then batches ++ [cur] else batches
  | s :: rest, batches, cur, chars =>
    let tl := s.text.length
    if batchSize ≤ cur.length ∨ (maxChars < chars + tl ∧ 0 < cur.length) then
      batchLoop batchSize maxChars rest (batches ++ [cur]) [s] tl
    else
      batchLoop batchSize maxChars rest batches (cur ++ [s]) (chars + tl)

/-- `batchSubtitles(subtitles, batchSize = 500, maxChars = 50000)`. -/
def batchSubtitles (subs : List Subtitle) (batchSize : Nat := 500)
    (maxChars : Nat := 50000) : List (List Subtitle) :=
  batchLoop batchSize maxChars subs [] [] 0

/-! ### Merge loop of the `translate` command (`cli.ts`)

The CLI copies the parsed sequence (`[...subtitles]`), then for each batch
computes `startIdx = subtitles.indexOf(batch[0])` and overwrites the slots
`startIdx + j` with `{...batch[j], text: translations[j]}`.  JavaScript
`indexOf` compares object references; captions produced by the parser are
pairwise-distinct heap objects, which the value model renders as structural
equality together with a `Nodup` hypothesis. -/

/-- `subtitles.indexOf(x)`; the source yields `-1` when absent, a case the
merge loop never exercises (every batch element comes from `subtitles`), so
absence is mapped to `length` here. -/
def subtitleIndexOf (x : Subtitle) : List Subtitle → Nat
  | [] => 0
  | s :: rest => if s = x then 0 else subtitleIndexOf x rest + 1

/-- The inner `for (j …)` loop: write `{...batch[j], text: translations[j]}`
at slot `k + j`.  The provider contract makes `translations` exactly as long
as the batch, so the simultaneous recursion is exact. -/
def mergeInner : Nat → List Subtitle → List String → List Subtitle → List Subtitle
  | _, [], _, acc => acc
  | _, _ :: _, [], acc => acc
  | k, b :: bs, t :: ts, acc => mergeInner (k + 1) bs ts (acc.set k { b with text := t })

/-- The outer `for (i …)` loop over batches. -/
def mergeLoop (subs : List Subtitle) (tr : List Subtitle → List String) :
    List (List Subtitle) → List Subtitle → List Subtitle
  | [], acc => acc
  | batch :: rest, acc =>
    let startIdx := subtitleIndexOf (batch.headD default) subs
    mergeLoop subs tr rest (mergeInner startIdx batch (tr batch) acc)

/-- The whole merge phase: start from a copy of the parsed sequence and fold
the batches through the provider `tr`. -/
def translateAndMerge (subs : List Subtitle) (tr : List Subtitle → List String)
    (batches : List (List Subtitle)) : List Subtitle :=
  mergeLoop subs tr batches subs

/-! ### Translation-response parsing (`parseTranslations` in the anthropic
provider, duplicated verbatim inside `translateBatch` in `translator.ts`) -/

/-- One entry step of the JavaScript `Map<number, string>`: `set` replaces
the value of an existing key and otherwise appends a new entry, so
an insertion-ordered association list is an exact model (only `size` and
`get` are ever observed). -/
def lmSet (m : List (Int × String)) (k : Int) (v : String) : List (Int × String) :=
  if m.any (fun p => p.1 = k) then
    m.map (fun p => if p.1 = k then (k, v) else p)
  else m ++ [(k, v)]

/-- JavaScript `Map.get`: `none` models `undefined`. -/
def lmGet (m : List (Int × String)) (k : Int) : Option String :=
  (m.find? (fun p => p.1 = k)).map (·.2)

/-- The regex step `line.match(/^\[(\d+)\]\s*(.+)$/)`.  The pattern matches
iff the line is `[` + a non-empty digit run + `]` + a non-empty remainder;
because the greedy `\s*` backtracks just enough to leave one character for
`(.+)` and the captured group is immediately `.trim()`ed by the caller, the
value recorded is exactly the trimmed remainder.  Returns the key
`parseInt(digits) - 1` and the trimmed value. -/
def matchNumbered (line : List Char) : Option (Int × String) :=
  match line with
  | '[' :: rest =>
    let ds := rest.takeWhile Char.isDigit
    match rest.dropWhile Char.isDigit with
    | ']' :: rest2 =>
      if ds = [] ∨ rest2 = [] then none
      else some ((digitsVal ds : Int) - 1, .mk (trimList rest2))
    | _ => none
  | _ => none

/-- The per-line body of the parsing loop: a numbered line is entered under
its own key; a non-matching, non-blank line is entered under the key
`lineMap.size` while the map is smaller than the batch. -/
def processLine (subCount : Nat) (m : List (Int × String)) (line : List Char) :
    List (Int × String) :=
  match matchNumbered line with
  | some (idx, v) => lmSet m idx v
  | none =>
    let clean := trimList line
    if clean ≠ [] ∧ m.length < subCount then lmSet m (m.length : Int) (.mk clean)
    else m

/-- The `lineMap` accumulated over `text.split('\n')`. -/
def buildLineMap (text : String) (subs : List Subtitle) : List (Int × String) :=
  (splitChar '\n' text.data).foldl (processLine subs.length) []

/-- `parseTranslations(text, subtitles)`: read out positions `0 … n-1`,
falling back to the original source text when the map has no entry
(or, `||` being falsy-based, an empty-string entry). -/
def parseTranslations (text : String) (subs : List Subtitle) : List String :=
  let m := buildLineMap text subs
  (List.range subs.length).map (fun i =>
    match lmGet m ((i : Nat) : Int) with
    | some v => if v = "" then (subs.getD i default).text else v
    | none => (subs.getD i default).text)

/-! ### Retry executor (`fetchWithRetry` in `translator.ts` and the provider
modules; both copies are character-identical) -/

/-- Classification: an error is retryable iff its message contains one of
the four transient HTTP status codes. -/
def isRetryable (msg : String) : Bool :=
  strIncludes msg "429" || strIncludes msg "500" ||
  strIncludes msg "502" || strIncludes msg "503"

/-- The list `[s, s+1, …, s+n-1]` of attempt numbers of the source's
`for (let attempt = 1; attempt <= maxRetries + 1; attempt++)` loop. -/
def attemptNums (s : Nat) : Nat → List Nat
  | 0 => []
  | n + 1 => s :: attemptNums (s + 1) n

/-- The retry loop.  The operation is modelled as a function from the attempt
number to that attempt's outcome; the result records the final outcome, the
number of attempts performed, and the list of back-off sleeps issued
(`baseDelay * 2 ^ (attempt - 1)` before each retry). -/
def retryLoop {α : Type} (op : Nat → Except String α) (maxRetries baseDelay : Nat) :
    List Nat → Nat → List Nat → String → Except String α × Nat × List Nat
  | [], used, sleeps, lastErr => (.error lastErr, used, sleeps)
  | attempt :: rest, used, sleeps, lastErr =>
    match op attempt with
    | .ok v => (.ok v, used + 1, sleeps)
    | .error e =>
      if maxRetries < attempt then (.error e, used + 1, sleeps)
      else if isRetryable e then
        retryLoop op maxRetries baseDelay rest (used + 1)
          (sleeps ++ [baseDelay * 2 ^ (attempt - 1)]) e
      else (.error e, used + 1, sleeps)

/-- `fetchWithRetry(fn, maxRetries, baseDelay)`: attempts run from `1` to
`maxRetries + 1`; falling off the loop re-raises the last error (initially
the placeholder `'Unknown error'`). -/
def fetchWithRetry {α : Type} (op : Nat → Except String α) (maxRetries baseDelay : Nat) :
    Except String α × Nat × List Nat :=
  retryLoop op maxRetries baseDelay (attemptNums 1 (maxRetries + 1)) 0 [] "Unknown error"

/-! ### Provider detection (`detectProvider` in `providers/types.ts`,
`createProvider` in `providers/index.ts`) -/

/-- The `ProviderName` union type. -/
inductive ProviderName where
  | openai
  | anthropic
  | gemini
  | kimi
  | whisper
deriving DecidableEq, Repr

/-- `detectProvider(apiKey)`: prefix dispatch on the key. -/
def detectProvider (apiKey : String) : Option ProviderName :=
  if strStartsWith apiKey "sk-kimi-" then some .kimi
  else if strStartsWith apiKey "sk-ant-" || strStartsWith apiKey "sk-" then
    if strStartsWith apiKey "sk-ant-" then some .anthropic else some .openai
  else if strStartsWith apiKey "AIza" then some .gemini
  else none

/-- The branch of `createProvider` taken when an API key but no provider
name is given: use the detected provider, defaulting to openai when
detection returns `null`. -/
def providerFromKey (apiKey : String) : ProviderName :=
  match detectProvider apiKey with
  | some p => p
  | none => .openai

/-! ### Whisper provider (`providers/whisper.ts`) -/

/-- JavaScript `s.toLowerCase()` (ASCII model). -/
def lowerStr (s : String) : String := .mk (s.data.map Char.toLower)

/-- The provider record returned by `createWhisperProvider`; statistics
and `resetStats` carry no information for the verified claims and are kept
as the constant zero record shape via `translateBatch` alone. -/
structure WhisperProvider where
  name : ProviderName
  translateBatch : List Subtitle → Except String (List String)

/-- `createWhisperProvider(config)`: throws at construction when the target
language is not English; the returned `translateBatch` throws on every
call. -/
def createWhisperProvider (targetLang : String) : Except String WhisperProvider :=
  if lowerStr targetLang ≠ "english" ∧ lowerStr targetLang ≠ "en" then
    .error ("Whisper can only translate TO English, not to " ++ targetLang)
  else
    .ok { name := .whisper,
          translateBatch := fun _ =>
            .error "Whisper provider does not support text translation." }

/-! ### Codec (`subtitles.ts`): parsing and serialization of the three
formats.  The handful of regular expressions the source uses are modelled
by dedicated scanners implementing their leftmost-match semantics. -/

/-- `normalizeLineEndings`: `content.replace(/\r\n/g, '\n').replace(/\r/g, '\n')`,
fused into one pass (after the first global replace no `\r\n` pair remains,
so the fusion is exact). -/
def normalizeLineEndings : List Char → List Char
  | [] => []
  | '\r' :: '\n' :: rest => '\n' :: normalizeLineEndings rest
  | '\r' :: rest => '\n' :: normalizeLineEndings rest
  | c :: rest => c :: normalizeLineEndings rest

/-- One character of the right-to-left pass modelling `split(/\n\n+/)`: the
state is (count of newlines immediately to the right that are not yet
assigned, current piece, finished pieces).  A run of two or more newlines is
a separator; a single newline belongs to the piece. -/
def splitBlocksStep (c : Char) :
    Nat × List Char × List (List Char) → Nat × List Char × List (List Char)
  | (run, cur, done) =>
    if c = '\n' then (run + 1, cur, done)
    else if 2 ≤ run then (0, [c], cur :: done)
    else (0, c :: (List.replicate run '\n' ++ cur), done)

/-- JavaScript `content.split(/\n\n+/)`. -/
def splitBlocks (cs : List Char) : List (List Char) :=
  match cs.foldr splitBlocksStep (0, [], []) with
  | (run, cur, done) =>
    if 2 ≤ run then [] :: cur :: done
    else (List.replicate run '\n' ++ cur) :: done

/-- Matching `\d{2}:\d{2}:\d{2}[,.]\d{3}` at the start of the input; returns
the twelve captured characters and the rest. -/
def matchSrtTime : List Char → Option (List Char × List Char)
  | a :: b :: c :: d :: e :: f :: g :: h :: i :: j :: k :: l :: rest =>
    if a.isDigit && b.isDigit && c == ':' && d.isDigit && e.isDigit && f == ':' &&
       g.isDigit && h.isDigit && (i == ',' || i == '.') &&
       j.isDigit && k.isDigit && l.isDigit then
      some ([a, b, c, d, e, f, g, h, i, j, k, l], rest)
    else none
  | _ => none

/-- Greedy `\s*` (whitespace never overlaps the following `-->` literal, so
greediness needs no backtracking). -/
def skipWs (cs : List Char) : List Char := cs.dropWhile Char.isWhitespace

/-- The literal `-->`. -/
def matchArrow : List Char → Option (List Char)
  | '-' :: '-' :: '>' :: rest => some rest
  | _ => none

/-- The SubRip timestamp-line pattern
`(\d{2}:\d{2}:\d{2}[,.]\d{3})\s*-->\s*(\d{2}:\d{2}:\d{2}[,.]\d{3})`
anchored at the current position. -/
def srtPairAt (cs : List Char) : Option (List Char × List Char) :=
  match matchSrtTime cs with
  | none => none
  | some (t1, r1) =>
    match matchArrow (skipWs r1) with
    | none => none
    | some r2 =>
      match matchSrtTime (skipWs r2) with
      | none => none
      | some (t2, _) => some (t1, t2)

/-- Unanchored (leftmost-match) search for the SubRip timestamp-line
pattern, as performed by `lines[1].match(...)`. -/
def searchTimePair : List Char → Option (List Char × List Char)
  | [] => none
  | c :: cs =>
    match srtPairAt (c :: cs) with
    | some r => some r
    | none => searchTimePair cs

/-- The long WebVTT time alternative `\d{2}:\d{2}:\d{2}\.\d{3}`. -/
def matchVttFull : List Char → Option (List Char × List Char)
  | a :: b :: c :: d :: e :: f :: g :: h :: i :: j :: k :: l :: rest =>
    if a.isDigit && b.isDigit && c == ':' && d.isDigit && e.isDigit && f == ':' &&
       g.isDigit && h.isDigit && i == '.' && j.isDigit && k.isDigit && l.isDigit then
      some ([a, b, c, d, e, f, g, h, i, j, k, l], rest)
    else none
  | _ => none

/-- The short WebVTT time alternative `\d{2}:\d{2}\.\d{3}`. -/
def matchVttShort : List Char → Option (List Char × List Char)
  | a :: b :: c :: d :: e :: f :: g :: h :: i :: rest =>
    if a.isDigit && b.isDigit && c == ':' && d.isDigit && e.isDigit && f == '.' &&
       g.isDigit && h.isDigit && i.isDigit then
      some ([a, b, c, d, e, f, g, h, i], rest)
    else none
  | _ => none

/-- The WebVTT time alternation, long form first (regex alternatives are
tried left to right). -/
def matchVttTime (cs : List Char) : Option (List Char × List Char) :=
  match matchVttFull cs with
  | some r => some r
  | none => matchVttShort cs

/-- The WebVTT timestamp-line pattern anchored at the current position. -/
def vttPairAt (cs : List Char) : Option (List Char × List Char) :=
  match matchVttTime cs with
  | none => none
  | some (t1, r1) =>
    match matchArrow (skipWs r1) with
    | none => none
    | some r2 =>
      match matchVttTime (skipWs r2) with
      | none => none
      | some (t2, _) => some (t1, t2)

/-- Unanchored search for the WebVTT timestamp-line pattern. -/
def searchVttTimePair : List Char → Option (List Char × List Char)
  | [] => none
  | c :: cs =>
    match vttPairAt (c :: cs) with
    | some r => some r
    | none => searchVttTimePair cs

/-- Matching `(\d+):(\d{2}):(\d{2})\.(\d{2})` at the current position
(`parseASS`'s `formatTime` regex, unanchored and without a tail anchor).
The greedy `\d+` takes the whole digit run: shrinking it would put a digit
where `:` is required. -/
def matchAssTimeAt (cs : List Char) :
    Option (List Char × List Char × List Char × List Char) :=
  match cs.takeWhile Char.isDigit, cs.dropWhile Char.isDigit with
  | [], _ => none
  | hd, ':' :: m1 :: m2 :: ':' :: s1 :: s2 :: '.' :: c1 :: c2 :: _ =>
    if m1.isDigit && m2.isDigit && s1.isDigit && s2.isDigit &&
       c1.isDigit && c2.isDigit then
      some (hd, [m1, m2], [s1, s2], [c1, c2])
    else none
  | _, _ => none

/-- Unanchored search for the `parseASS` `formatTime` pattern. -/
def searchAssTime : List Char →
    Option (List Char × List Char × List Char × List Char)
  | [] => none
  | c :: cs =>
    match matchAssTimeAt (c :: cs) with
    | some r => some r
    | none => searchAssTime cs

/-- Matching `(\d{2}):(\d{2}):(\d{2}),(\d{3})` at the current position
(`toASS`'s `formatTime` regex), returning the four captured groups. -/
def matchSrtParts (cs : List Char) :
    Option (List Char × List Char × List Char × List Char) :=
  match cs with
  | a :: b :: c :: d :: e :: f :: g :: h :: i :: j :: k :: l :: _ =>
    if a.isDigit && b.isDigit && c == ':' && d.isDigit && e.isDigit && f == ':' &&
       g.isDigit && h.isDigit && i == ',' && j.isDigit && k.isDigit && l.isDigit then
      some ([a, b], [d, e], [g, h], [j, k, l])
    else none
  | _ => none

/-- Unanchored search for the `toASS` `formatTime` pattern. -/
def searchSrtParts : List Char →
    Option (List Char × List Char × List Char × List Char)
  | [] => none
  | c :: cs =>
    match matchSrtParts (c :: cs) with
    | some r => some r
    | none => searchSrtParts cs

/-- Global replace of `/<[^>]+>/` (WebVTT inline-tag stripping).  The first
argument is fuel; the input length is always sufficient since every step
consumes at least one input character. -/
def stripTagsGo : Nat → List Char → List Char
  | 0, cs => cs
  | _, [] => []
  | fuel + 1, c :: rest =>
    if c = '<' then
      match rest.dropWhile (· != '>') with
      | '>' :: rest2 =>
        if rest.takeWhile (· != '>') = [] then c :: stripTagsGo fuel rest
        else stripTagsGo fuel rest2
      | _ => c :: stripTagsGo fuel rest
    else c :: stripTagsGo fuel rest

/-- JavaScript `.replace(/<[^>]+>/g, '')`. -/
def stripTags (cs : List Char) : List Char := stripTagsGo cs.length cs

/-- Global replace of `/\{[^}]+\}/` (ASS style-override stripping), like
`stripTags` with braces. -/
def stripBracesGo : Nat → List Char → List Char
  | 0, cs => cs
  | _, [] => []
  | fuel + 1, c :: rest =>
    if c = '\x7b' then
      match rest.dropWhile (· != '\x7d') with
      | '\x7d' :: rest2 =>
        if rest.takeWhile (· != '\x7d') = [] then c :: stripBracesGo fuel rest
        else stripBracesGo fuel rest2
      | _ => c :: stripBracesGo fuel rest
    else c :: stripBracesGo fuel rest

/-- JavaScript `.replace(/\{[^}]+\}/g, '')`. -/
def stripBraces (cs : List Char) : List Char := stripBracesGo cs.length cs

/-- JavaScript `.replace(/\\N/g, '\n')` (ASS line-break markers). -/
def replaceNsl : List Char → List Char
  | '\\' :: 'N' :: rest => '\n' :: replaceNsl rest
  | c :: rest => c :: replaceNsl rest
  | [] => []

/-- JavaScript `.replace(/\n/g, '\\N')` (`toASS` text escaping). -/
def escNL : List Char → List Char
  | [] => []
  | '\n' :: rest => '\\' :: 'N' :: escNL rest
  | c :: rest => c :: escNL rest

/-- JavaScript `arr.join(sep)` for a multi-character separator. -/
def joinSepL (sep : List Char) : List (List Char) → List Char
  | [] => []
  | [b] => b
  | b :: bs => b ++ sep ++ joinSepL sep bs

/-- One SubRip block parse (`parseSRT` loop body): blank-filtered lines, at
least three of them, a numeric first line, a matched timestamp line; dot
separators are normalized to commas. -/
def parseSRTBlock (b : List Char) : Option Subtitle :=
  let lines := (splitChar '\n' b).filter (fun l => trimList l ≠ [])
  if lines.length < 3 then none
  else
    match jsParseInt (lines.getD 0 []) with
    | none => none
    | some idx =>
      match searchTimePair (lines.getD 1 []) with
      | none => none
      | some (t1, t2) =>
        some { index := idx,
               startTime := .mk (replaceFirst '.' ',' t1),
               endTime := .mk (replaceFirst '.' ',' t2),
               text := .mk (joinSep '\n' (lines.drop 2)) }

/-- `parseSRT(content)`. -/
def parseSRT (content : String) : List Subtitle :=
  ((splitBlocks (normalizeLineEndings content.data)).filter
    (fun blk => trimList blk ≠ [])).filterMap parseSRTBlock

/-- One WebVTT block parse (`parseVTT` loop body).  The state is the
running `index` counter and the output array. -/
def parseVTTStep (st : Nat × List Subtitle) (block : List Char) :
    Nat × List Subtitle :=
  if trimList block = "WEBVTT".data ∨ listStartsWith "NOTE".data block then st
  else
    let lines := (splitChar '\n' block).filter (fun l => trimList l ≠ [])
    if lines.length < 2 then st
    else
      let tIdx := if listContainsSeq "-->".data (lines.getD 0 []) then 0 else 1
      match searchVttTimePair (lines.getD tIdx []) with
      | none => st
      | some (t1, t2) =>
        let t1 := if (splitChar ':' t1).length = 2 then "00:".data ++ t1 else t1
        let t2 := if (splitChar ':' t2).length = 2 then "00:".data ++ t2 else t2
        (st.1 + 1,
         st.2 ++ [{ index := ((st.1 + 1 : Nat) : Int),
                    startTime := .mk (replaceFirst '.' ',' t1),
                    endTime := .mk (replaceFirst '.' ',' t2),
                    text := .mk (stripTags (joinSep '\n' (lines.drop (tIdx + 1)))) }])

/-- `parseVTT(content)`. -/
def parseVTT (content : String) : List Subtitle :=
  (((splitBlocks (normalizeLineEndings content.data)).filter
      (fun blk => trimList blk ≠ [])).foldl parseVTTStep (0, [])).2

/-- The `parseASS` state: inside `[Events]`, the `Format:` column names,
the running index counter, the output array. -/
structure AssState where
  inEvents : Bool
  fields : List (List Char)
  count : Nat
  acc : List Subtitle
deriving DecidableEq

/-- JavaScript `arr.indexOf(x)` over the column names (`-1` is modelled as
`none`). -/
def listIdxOf (l : List (List Char)) (x : List Char) : Option Nat :=
  l.findIdx? (fun f => f == x)

/-- `parseASS`'s inner `formatTime`: centisecond ASS timestamps become
comma-millisecond ones by padding the hour to two digits and appending a
zero to the centiseconds. -/
def assParseTime (t : List Char) : List Char :=
  match searchAssTime t with
  | some (hd, m, s, cs) => padStart2 hd ++ ':' :: m ++ ':' :: s ++ ',' :: cs ++ ['0']
  | none => "00:00:00,000".data

/-- One line of the `parseASS` state machine. -/
def assStep (st : AssState) (line : List Char) : AssState :=
  if trimList line = "[Events]".data then { st with inEvents := true }
  else if listStartsWith "[".data line && line.getLast? == some ']' then
    { st with inEvents := false }
  else if !st.inEvents then st
  else if listStartsWith "Format:".data line then
    { st with fields := ((splitChar ',' (line.drop 7)).map
        (fun f => (trimList f).map Char.toLower)) }
  else if listStartsWith "Dialogue:".data line then
    let values := splitChar ',' (line.drop 9)
    match listIdxOf st.fields "start".data, listIdxOf st.fields "end".data,
          listIdxOf st.fields "text".data with
    | some si, some ei, some ti =>
      match (values.get? si).map trimList, (values.get? ei).map trimList with
      | some stt, some ett =>
        let text := stripBraces (replaceNsl (trimList (joinSep ',' (values.drop ti))))
        if stt = [] ∨ ett = [] then st
        else { st with
               count := st.count + 1,
               acc := st.acc ++ [{ index := ((st.count + 1 : Nat) : Int),
                                   startTime := .mk (assParseTime stt),
                                   endTime := .mk (assParseTime ett),
                                   text := .mk text }] }
      | _, _ => st
    | _, _, _ => st
  else st

/-- `parseASS(content)`. -/
def parseASS (content : String) : List Subtitle :=
  ((splitChar '\n' (normalizeLineEndings content.data)).foldl assStep
    ⟨false, [], 0, []⟩).acc

/-- `parse(content, format)`. -/
def parse (content : String) : SubtitleFormat → List Subtitle
  | .vtt => parseVTT content
  | .ass => parseASS content
  | .srt => parseSRT content

/-- One `toSRT` block: `${i + 1}\n${startTime} --> ${endTime}\n${text}`. -/
def srtBlockChars (i : Nat) (s : Subtitle) : List Char :=
  natDigits (i + 1) ++
    '\n' :: (s.startTime.data ++ ' ' :: '-' :: '-' :: '>' :: ' ' :: s.endTime.data) ++
    '\n' :: s.text.data

/-- The `toSRT` blocks of a suffix of the list, carrying the 0-based
position of its first caption (`map`'s second callback argument). -/
def srtBlocksFrom : Nat → List Subtitle → List (List Char)
  | _, [] => []
  | i, s :: rest => srtBlockChars i s :: srtBlocksFrom (i + 1) rest

/-- `toSRT(subtitles)`: blocks joined by blank lines, plus a final newline. -/
def toSRT (subs : List Subtitle) : String :=
  .mk (joinSepL "\n\n".data (srtBlocksFrom 0 subs) ++ ['\n'])

/-- One `toVTT` block: like SubRip but with dot-separated timestamps
(`replace(',', '.')` swaps the single comma). -/
def vttBlockChars (i : Nat) (s : Subtitle) : List Char :=
  natDigits (i + 1) ++
    '\n' :: (replaceFirst ',' '.' s.startTime.data ++
      ' ' :: '-' :: '-' :: '>' :: ' ' :: replaceFirst ',' '.' s.endTime.data) ++
    '\n' :: s.text.data

/-- The `toVTT` blocks of a suffix of the list. -/
def vttBlocksFrom : Nat → List Subtitle → List (List Char)
  | _, [] => []
  | i, s :: rest => vttBlockChars i s :: vttBlocksFrom (i + 1) rest

/-- `toVTT(subtitles)`: the `WEBVTT` header, the blocks joined by blank
lines, a final newline. -/
def toVTT (subs : List Subtitle) : String :=
  .mk ("WEBVTT\n\n".data ++ joinSepL "\n\n".data (vttBlocksFrom 0 subs) ++ ['\n'])

/-- `toASS`'s `formatTime`: comma-millisecond timestamps become
`H:MM:SS.cc` (hour unpadded via `parseInt`, milliseconds truncated). -/
def assOutTime (t : List Char) : List Char :=
  match searchSrtParts t with
  | some (hd, m, s, ms) =>
    natDigits (digitsVal hd) ++ ':' :: m ++ ':' :: s ++ '.' :: ms.take 2
  | none => "0:00:00.00".data

/-- One `toASS` dialogue line. -/
def assDialogue (s : Subtitle) : List Char :=
  "Dialogue: 0,".data ++ assOutTime s.startTime.data ++
    ',' :: assOutTime s.endTime.data ++ ",Default,,0,0,0,,".data ++ escNL s.text.data

/-- The fixed `toASS` header template. -/
def assHeader : String :=
  "[Script Info]\nTitle: Translated Subtitles\nScriptType: v4.00+\nCollisions: Normal\nPlayDepth: 0\n\n[V4+ Styles]\nFormat: Name, Fontname, Fontsize, PrimaryColour, SecondaryColour, OutlineColour, BackColour, Bold, Italic, Underline, StrikeOut, ScaleX, ScaleY, Spacing, Angle, BorderStyle, Outline, Shadow, Alignment, MarginL, MarginR, MarginV, Encoding\nStyle: Default,Arial,20,&H00FFFFFF,&H000000FF,&H00000000,&H00000000,0,0,0,0,100,100,0,0,1,2,2,2,10,10,10,1\n\n[Events]\nFormat: Layer, Start, End, Style, Name, MarginL, MarginR, MarginV, Effect, Text\n"

/-- `toASS(subtitles)`: header template, dialogue lines joined by newlines,
a final newline. -/
def toASS (subs : List Subtitle) : String :=
  .mk (assHeader.data ++ joinSep '\n' (subs.map assDialogue) ++ ['\n'])

/-- `serialize(subtitles, format)`. -/
def serialize (subs : List Subtitle) : SubtitleFormat → String
  | .vtt => toVTT subs
  | .ass => toASS subs
  | .srt => toSRT subs

/-! ### Well-formedness predicates used by the amended round-trip and
timestamp-shape claims. -/

/-- Two consecutive newlines occur somewhere. -/
def hasNN : List Char → Bool
  | '\n' :: '\n' :: _ => true
  | _ :: rest => hasNN rest
  | [] => false

/-- The normalized comma timestamp shape `HH:MM:SS,mmm` that both parsers
emit and the serializers consume. -/
def isNormTime (cs : List Char) : Bool :=
  match cs with
  | [a, b, c, d, e, f, g, h, i, j, k, l] =>
    a.isDigit && b.isDigit && c == ':' && d.isDigit && e.isDigit && f == ':' &&
    g.isDigit && h.isDigit && i == ',' && j.isDigit && k.isDigit && l.isDigit
  | _ => false

/-- The timestamp shape `parseASS` emits: a digit run of length at least
two for the hour, then `:MM:SS,` and a three-digit millisecond field. -/
def isAssOutTime (cs : List Char) : Bool :=
  match cs.dropWhile Char.isDigit with
  | [c1, m1, m2, c2, s1, s2, c3, d1, d2, d3] =>
    2 ≤ (cs.takeWhile Char.isDigit).length &&
    c1 == ':' && m1.isDigit && m2.isDigit && c2 == ':' && s1.isDigit && s2.isDigit &&
    c3 == ',' && d1.isDigit && d2.isDigit && d3.isDigit
  | _ => false

/-- Caption text that survives the SubRip/WebVTT block framing: no blank
line inside it, no leading or trailing newline, no carriage return, and at
least one line with a non-whitespace character. -/
def goodText (cs : List Char) : Bool :=
  !hasNN cs && cs.head? != some '\n' && cs.getLast? != some '\n' &&
  !cs.contains '\r' && (splitChar '\n' cs).any (fun l => !(trimList l).isEmpty)

/-- A caption whose timestamps are in the normalized comma shape and whose
text survives block framing. -/
def wellformedCaption (c : Subtitle) : Bool :=
  isNormTime c.startTime.data && isNormTime c.endTime.data && goodText c.text.data

/-! ### Concrete sample data used by the closed witness theorems. -/

/-- A five-caption sample sequence (distinct captions, normalized times). -/
def demo5 : List Subtitle :=
  [⟨1, "00:00:01,000", "00:00:02,000", "one"⟩,
   ⟨2, "00:00:03,000", "00:00:04,000", "two"⟩,
   ⟨3, "00:00:05,000", "00:00:06,000", "three"⟩,
   ⟨4, "00:00:07,000", "00:00:08,000", "four"⟩,
   ⟨5, "00:00:09,000", "00:00:10,000", "five"⟩]

/-- A two-caption sample batch for the response-parsing claims. -/
def demoBatch2 : List Subtitle :=
  [⟨1, "00:00:01,000", "00:00:02,000", "s1"⟩,
   ⟨2, "00:00:03,000", "00:00:04,000", "s2"⟩]

/-- A caption with empty text: the SubRip round-trip counterexample. -/
def demoEmptyText : Subtitle := ⟨1, "00:00:01,000", "00:00:02,000", ""⟩

/-- An AdvancedSubStation input whose dialogue has a three-digit hour. -/
def demoAssBigHour : String :=
  "[Events]\nFormat: Start, End, Text\nDialogue: 100:00:00.00,100:00:01.00,Hi"

/-- An SRT input whose single block carries the cue identifier `5`. -/
def demoSrtTrusted : String := "5\n00:00:01,000 --> 00:00:02,000\nHello"

/-! ### Specification-side helpers for the round-trip proofs (not source
translations: they name the lists the proofs show the parsers to return). -/

/-- The pieces `split(/\n\n+/)` recovers from blocks joined by blank lines
and terminated by one newline: every block verbatim, the last one keeping
the trailing newline. -/
def lastPieces : List (List Char) → List (List Char)
  | [] => []
  | [b] => [b ++ ['\n']]
  | b :: bs => b :: lastPieces bs

/-- What `parseSRT` returns for the serialization of a well-formed caption
list (position argument first). -/
def srtExpected : Nat → List Subtitle → List Subtitle
  | _, [] => []
  | i, c :: rest =>
    { index := (digitsVal (natDigits (i + 1)) : Int),
      startTime := c.startTime, endTime := c.endTime,
      text := .mk (joinSep '\n' ((splitChar '\n' c.text.data).filter
        (fun l => trimList l ≠ []))) } :: srtExpected (i + 1) rest

/-- What `parseVTT` returns for the serialization of a well-formed caption
list (running index counter first). -/
def vttExpected : Nat → List Subtitle → List Subtitle
  | _, [] => []
  | n, c :: rest =>
    { index := ((n + 1 : Nat) : Int),
      startTime := c.startTime, endTime := c.endTime,
      text := .mk (stripTags (joinSep '\n' ((splitChar '\n' c.text.data).filter
        (fun l => trimList l ≠ [])))) } :: vttExpected (n + 1) rest

/-- What `parseASS` returns for the serialization of a well-formed caption
list: timestamps truncated to centiseconds (first eleven characters kept, a
zero appended). -/
def assExpected : Nat → List Subtitle → List Subtitle
  | _, [] => []
  | n, c :: rest =>
    { index := ((n + 1 : Nat) : Int),
      startTime := .mk (c.startTime.data.take 11 ++ ['0']),
      endTime := .mk (c.endTime.data.take 11 ++ ['0']),
      text := .mk (stripBraces (replaceNsl (trimList (escNL c.text.data)))) } ::
      assExpected (n + 1) rest

/-- The column lookup produced by the `Format:` line of the `toASS` header. -/
def assStdFields : List (List Char) :=
  ["layer".data, "start".data, "end".data, "style".data, "name".data,
   "marginl".data, "marginr".data, "marginv".data, "effect".data, "text".data]

/-! ## Theorems -/

/-! ### Batcher: C2 and the partition helpers shared with C1. -/

theorem batchLoop_flatten (bs mc : Nat) :
    ∀ (rest : List Subtitle) (batches : List (List Subtitle)) (cur : List Subtitle)
      (chars : Nat),
    (batchLoop bs mc rest batches cur chars).flatten = batches.flatten ++ (cur ++ rest)
  | [], batches, cur, chars => by
    simp only [batchLoop]
    split
    · simp
    · rename_i h
      have hc : cur = [] := by
        cases cur with
        | nil => rfl
        | cons a l => simp at h
      simp [hc]
  | s :: rest, batches, cur, chars => by
    simp only [batchLoop]
    split
    · rw [batchLoop_flatten bs mc rest]
      simp
    · rw [batchLoop_flatten bs mc rest]
      simp

theorem batchSubtitles_flatten (subs : List Subtitle) (bs mc : Nat) :
    (batchSubtitles subs bs mc).flatten = subs := by
  unfold batchSubtitles
  rw [batchLoop_flatten]
  simp

theorem batchLoop_nonempty (bs mc : Nat) (hbs : 1 ≤ bs) :
    ∀ (rest : List Subtitle) (batches : List (List Subtitle)) (cur : List Subtitle)
      (chars : Nat),
    (∀ b ∈ batches, b ≠ []) →
    ∀ b ∈ batchLoop bs mc rest batches cur chars, b ≠ []
  | [], batches, cur, chars => by
    intro hb
    simp only [batchLoop]
    split
    · intro b hb'
      rcases List.mem_append.mp hb' with h | h
      · exact hb b h
      · rename_i hlen
        simp only [List.mem_singleton] at h
        subst h
        intro hc
        rw [hc] at hlen
        simp at hlen
    · exact hb
  | s :: rest, batches, cur, chars => by
    intro hb
    simp only [batchLoop]
    split
    · refine batchLoop_nonempty bs mc hbs rest _ _ _ ?_
      intro b hb'
      rcases List.mem_append.mp hb' with h | h
      · exact hb b h
      · simp only [List.mem_singleton] at h
        subst h
        rename_i hcond
        rcases hcond with h1 | h2
        · intro hc
          rw [hc] at h1
          simp at h1
          omega
        · intro hc
          rw [hc] at h2
          simp at h2
    · exact batchLoop_nonempty bs mc hbs rest _ _ _ hb

theorem batchSubtitles_nonempty (subs : List Subtitle) (bs mc : Nat) (hbs : 1 ≤ bs) :
    ∀ b ∈ batchSubtitles subs bs mc, b ≠ [] :=
  batchLoop_nonempty bs mc hbs subs [] [] 0 (by simp)

theorem batchLoop_bounds (bs mc : Nat) (hbs : 1 ≤ bs) :
    ∀ (rest : List Subtitle) (batches : List (List Subtitle)) (cur : List Subtitle)
      (chars : Nat),
    (∀ b ∈ batches,
      b.length ≤ bs ∧ (charSum b ≤ mc ∨ ∃ s, b = [s] ∧ mc < s.text.length)) →
    cur.length ≤ bs → chars = charSum cur →
    (charSum cur ≤ mc ∨ ∃ s, cur = [s] ∧ mc < s.text.length) →
    ∀ b ∈ batchLoop bs mc rest batches cur chars,
      b.length ≤ bs ∧ (charSum b ≤ mc ∨ ∃ s, b = [s] ∧ mc < s.text.length)
  | [], batches, cur, chars => by
    intro hb hcl hch hcs
    simp only [batchLoop]
    split
    · intro b hb'
      rcases List.mem_append.mp hb' with h | h
      · exact hb b h
      · simp only [List.mem_singleton] at h
        subst h
        exact ⟨hcl, hcs⟩
    · exact hb
  | s :: rest, batches, cur, chars => by
    intro hb hcl hch hcs
    simp only [batchLoop]
    split
    · refine batchLoop_bounds bs mc hbs rest _ _ _ ?_ (by simpa using hbs)
        (by simp [charSum]) ?_
      · intro b hb'
        rcases List.mem_append.mp hb' with h | h
        · exact hb b h
        · simp only [List.mem_singleton] at h
          subst h
          exact ⟨hcl, hcs⟩
      · rcases le_or_lt s.text.length mc with h | h
        · exact Or.inl (by simpa [charSum] using h)
        · exact Or.inr ⟨s, rfl, h⟩
    · rename_i hcond
      push_neg at hcond
      obtain ⟨h1, h2⟩ := hcond
      refine batchLoop_bounds bs mc hbs rest _ _ _ hb ?_ ?_ ?_
      · simp only [List.length_append, List.length_singleton]
        omega
      · simp [charSum, List.sum_append, hch]
      · rcases le_or_lt (chars + s.text.length) mc with h3 | h3
        · refine Or.inl ?_
          have hsum : charSum (cur ++ [s]) = charSum cur + s.text.length := by
            simp [charSum]
          omega
        · have h0 : cur.length = 0 := by
            have := h2 h3
            omega
          have hc : cur = [] := List.length_eq_zero.mp h0
          subst hc
          rcases le_or_lt s.text.length mc with h4 | h4
          · exact Or.inl (by simpa [charSum] using h4)
          · exact Or.inr ⟨s, rfl, h4⟩

/-- C2: for every caption list, every `maxCount ≥ 1` and every
`maxTotalChars`, the batches returned by `batchSubtitles` concatenate in
order to exactly the input list; no batch exceeds `maxCount` captions; and
no batch's total text length exceeds `maxTotalChars` except a singleton
batch whose single caption's own text length exceeds it. -/
theorem batchSubtitles_partition (subs : List Subtitle) (bs mc : Nat) (hbs : 1 ≤ bs) :
    (batchSubtitles subs bs mc).flatten = subs ∧
    ∀ b ∈ batchSubtitles subs bs mc,
      b.length ≤ bs ∧ (charSum b ≤ mc ∨ ∃ s, b = [s] ∧ mc < s.text.length) := by
  refine ⟨batchSubtitles_flatten subs bs mc, ?_⟩
  exact batchLoop_bounds bs mc hbs subs [] [] 0 (by simp) (by simp) (by simp [charSum])
    (Or.inl (by simp [charSum]))

/-- Witness for C2 at a concrete five-caption input with `maxCount = 2`. -/
theorem batchSubtitles_partition_witness :
    (batchSubtitles demo5 2 50000).flatten = demo5 ∧
    (demo5.take 2).length ≤ 2 := by
  have h := batchSubtitles_partition demo5 2 50000 (by decide)
  exact ⟨h.1, (h.2 (demo5.take 2) (by decide)).1⟩

/-! ### Merge loop: C1. -/

theorem subtitleIndexOf_middle (x : Subtitle) (post : List Subtitle) :
    ∀ pre : List Subtitle, (pre ++ x :: post).Nodup →
    subtitleIndexOf x (pre ++ x :: post) = pre.length
  | [], _ => by simp [subtitleIndexOf]
  | p :: pre, h => by
    have hmem : p ∉ pre ++ x :: post := (List.nodup_cons.mp h).1
    have hpx : p ≠ x := by
      intro he
      exact hmem (by simp [he])
    have hrec := subtitleIndexOf_middle x post pre (List.nodup_cons.mp h).2
    simp only [List.cons_append, subtitleIndexOf, if_neg hpx, List.length_cons]
    exact congrArg (fun n => n + 1) hrec


theorem mergeInner_eq :
    ∀ (b : List Subtitle) (ts : List String) (k : Nat) (acc : List Subtitle),
    ts.length = b.length → k + b.length ≤ acc.length →
    mergeInner k b ts acc =
      acc.take k ++ List.zipWith (fun s t => { s with text := t }) b ts ++
        acc.drop (k + b.length)
  | [], ts, k, acc, hlen, hle => by
    simp [mergeInner, List.take_append_drop]
  | b :: bs, ts, k, acc, hlen, hle => by
    cases ts with
    | nil => simp at hlen
    | cons t ts =>
      have hk : k < acc.length := by
        simp only [List.length_cons] at hle
        omega
      have hset : acc.set k { b with text := t } =
          acc.take k ++ { b with text := t } :: acc.drop (k + 1) := by
        rw [List.set_eq_take_append_cons_drop, if_pos hk]
      have hlen' : ts.length = bs.length := by simpa using hlen
      have hle' : (k + 1) + bs.length ≤ (acc.set k { b with text := t }).length := by
        simp only [List.length_set, List.length_cons] at *
        omega
      simp only [mergeInner]
      rw [mergeInner_eq bs ts (k + 1) _ hlen' hle']
      have htk : (acc.set k { b with text := t }).take (k + 1) =
          acc.take k ++ [{ b with text := t }] := by
        rw [hset, List.take_append_eq_append_take]
        have h1 : (acc.take k).length = k := by
          simp [List.length_take]
          omega
        rw [List.take_of_length_le (by omega), h1]
        simp
      have hdr : (acc.set k { b with text := t }).drop (k + 1 + bs.length) =
          acc.drop (k + (bs.length + 1)) := by
        rw [hset, List.drop_append_eq_append_drop]
        have h1 : (acc.take k).length = k := by
          simp [List.length_take]
          omega
        rw [h1, List.drop_eq_nil_of_le (by omega)]
        simp only [List.nil_append]
        have h2 : k + 1 + bs.length - k = bs.length + 1 := by omega
        rw [h2, List.drop_succ_cons, List.drop_drop]
        congr 1
        omega
      rw [htk, hdr]
      simp only [List.length_cons, List.zipWith_cons_cons, List.append_assoc,
        List.cons_append, List.nil_append]

theorem mergeLoop_eq (subs : List Subtitle) (tr : List Subtitle → List String)
    (htr : ∀ b, (tr b).length = b.length) :
    ∀ (batches : List (List Subtitle)) (pre acc : List Subtitle),
    subs.Nodup → subs = pre ++ batches.flatten → (∀ b ∈ batches, b ≠ []) →
    acc.length = subs.length →
    mergeLoop subs tr batches acc =
      acc.take pre.length ++
        List.zipWith (fun s t => { s with text := t }) batches.flatten
          (batches.map tr).flatten
  | [], pre, acc, hnd, hsubs, hne, hlen => by
    have hpre : pre.length = acc.length := by
      rw [hlen, hsubs]
      simp
    simp [mergeLoop, hpre, List.take_length]
  | batch :: rest, pre, acc, hnd, hsubs, hne, hlen => by
    obtain ⟨b0, bs', rfl⟩ : ∃ b0 bs', batch = b0 :: bs' := by
      cases batch with
      | nil => exact absurd rfl (hne _ (by simp))
      | cons a l => exact ⟨a, l, rfl⟩
    have hsubs' : subs = pre ++ b0 :: (bs' ++ rest.flatten) := by
      simpa using hsubs
    have hidx : subtitleIndexOf b0 subs = pre.length := by
      rw [hsubs']
      exact subtitleIndexOf_middle b0 _ pre (hsubs' ▸ hnd)
    have hsublen : subs.length = pre.length + (bs'.length + 1) + rest.flatten.length := by
      rw [hsubs']
      simp only [List.length_append, List.length_cons]
      omega
    have hle : pre.length + (b0 :: bs').length ≤ acc.length := by
      rw [hlen]
      simp only [List.length_cons]
      omega
    simp only [mergeLoop, List.headD_cons, hidx]
    rw [mergeInner_eq (b0 :: bs') (tr (b0 :: bs')) pre.length acc (htr _) hle]
    set zb := List.zipWith (fun s t => { s with text := t }) (b0 :: bs')
      (tr (b0 :: bs')) with hzb
    have hzblen : zb.length = bs'.length + 1 := by
      rw [hzb, List.length_zipWith, htr]
      simp
    have hA : (acc.take pre.length).length = pre.length := by
      rw [List.length_take]
      have : pre.length ≤ acc.length := by omega
      omega
    have hacc' : (acc.take pre.length ++ zb ++
        acc.drop (pre.length + (b0 :: bs').length)).length = subs.length := by
      simp only [List.length_append, List.length_drop, hA, hzblen, hlen,
        List.length_cons]
      omega
    rw [mergeLoop_eq subs tr htr rest (pre ++ (b0 :: bs')) _ hnd (by simpa using hsubs)
      (fun b hb => hne b (by simp [hb])) hacc']
    have htk2 : (acc.take pre.length ++ zb ++
        acc.drop (pre.length + (b0 :: bs').length)).take (pre ++ b0 :: bs').length =
        acc.take pre.length ++ zb := by
      refine List.take_left' ?_
      simp only [List.length_append, hA, hzblen, List.length_cons]
      try omega
    rw [htk2]
    have hflat1 : ((b0 :: bs') :: rest).flatten = (b0 :: bs') ++ rest.flatten := by
      simp
    have hflat2 : (((b0 :: bs') :: rest).map tr).flatten =
        tr (b0 :: bs') ++ (rest.map tr).flatten := by
      simp
    rw [hflat1, hflat2, List.zipWith_append _ _ _ _ _ (htr _).symm, ← hzb,
      List.append_assoc]

/-- C1: for every pairwise-distinct caption sequence (the value-level image
of JavaScript reference identity) and the batches `batchSubtitles` produces
from it, after the merge loop completes under the provider length contract,
the output has the same length as the input, the caption at each position
keeps its original `startTime` and `endTime`, and the text at position `i`
is the translation at the corresponding offset of the unique batch
containing `i` — stated via the flattening of the per-batch translation
lists, whose entry `i` is exactly that translation. -/
theorem merge_preserves_positions (subs : List Subtitle) (bs mc : Nat)
    (tr : List Subtitle → List String) (hbs : 1 ≤ bs) (hnd : subs.Nodup)
    (htr : ∀ b, (tr b).length = b.length) :
    (translateAndMerge subs tr (batchSubtitles subs bs mc)).length = subs.length ∧
    ∀ i, i < subs.length →
      ((translateAndMerge subs tr (batchSubtitles subs bs mc)).getD i default).startTime =
        ((subs.getD i default)).startTime ∧
      ((translateAndMerge subs tr (batchSubtitles subs bs mc)).getD i default).endTime =
        ((subs.getD i default)).endTime ∧
      ((translateAndMerge subs tr (batchSubtitles subs bs mc)).getD i default).text =
        (((batchSubtitles subs bs mc).map tr).flatten).getD i "" := by
  have hflat : (batchSubtitles subs bs mc).flatten = subs :=
    batchSubtitles_flatten subs bs mc
  have hmain : translateAndMerge subs tr (batchSubtitles subs bs mc) =
      List.zipWith (fun s t => { s with text := t }) subs
        ((batchSubtitles subs bs mc).map tr).flatten := by
    unfold translateAndMerge
    rw [mergeLoop_eq subs tr htr (batchSubtitles subs bs mc) [] subs hnd
      (by rw [hflat]; rfl) (batchSubtitles_nonempty subs bs mc hbs) rfl]
    simp [hflat]
  have htrlen : (((batchSubtitles subs bs mc).map tr).flatten).length = subs.length := by
    have h1 : ∀ B : List (List Subtitle), ((B.map tr).flatten).length = B.flatten.length := by
      intro B
      rw [List.length_flatten, List.length_flatten, List.map_map]
      congr 1
      exact List.map_congr_left (fun b _ => htr b)
    rw [h1, hflat]
  have hlen : (translateAndMerge subs tr (batchSubtitles subs bs mc)).length =
      subs.length := by
    rw [hmain, List.length_zipWith, htrlen]
    omega
  refine ⟨hlen, ?_⟩
  intro i hi
  have hi2 : i < (List.zipWith (fun s t => { s with text := t }) subs
      (((batchSubtitles subs bs mc).map tr).flatten)).length := by
    rw [← hmain, hlen]
    exact hi
  have hzip : (translateAndMerge subs tr (batchSubtitles subs bs mc)).getD i default =
      (List.zipWith (fun s t => { s with text := t }) subs
        (((batchSubtitles subs bs mc).map tr).flatten)).getD i default := by
    rw [hmain]
  rw [hzip, List.getD_eq_getElem _ _ hi2]
  simp only [List.getElem_zipWith]
  rw [List.getD_eq_getElem subs _ hi,
    List.getD_eq_getElem _ _ (show i < (((batchSubtitles subs bs mc).map tr).flatten).length by omega)]
  exact ⟨rfl, rfl, rfl⟩

/-- Witness for C1 at the five-caption sample with batches of sizes 2, 2, 1:
the caption at 0-based position 3 carries the second translation of the
second batch. -/
theorem merge_preserves_positions_witness :
    (translateAndMerge demo5 (fun b => b.map (fun s => "T" ++ s.text))
      (batchSubtitles demo5 2 50000)).length = 5 ∧
    ((translateAndMerge demo5 (fun b => b.map (fun s => "T" ++ s.text))
      (batchSubtitles demo5 2 50000)).getD 3 default).startTime = "00:00:07,000" ∧
    ((translateAndMerge demo5 (fun b => b.map (fun s => "T" ++ s.text))
      (batchSubtitles demo5 2 50000)).getD 3 default).text = "Tfour" := by
  have h := merge_preserves_positions demo5 2 50000
    (fun b => b.map (fun s => "T" ++ s.text)) (by decide) (by decide)
    (fun b => List.length_map b _)
  have h3 := h.2 3 (by decide)
  refine ⟨by rw [h.1]; rfl, by rw [h3.1]; rfl, by rw [h3.2.2]; rfl⟩

/-! ### Response parsing: C3 and C7. -/

/-- C3: for every batch and every response text, the parsing step returns
exactly one string per caption and any position with no map entry falls
back to that caption's original text.  The parsing step is a total
function of the response text — the model of "never raises". -/
theorem parseTranslations_length_fallback (text : String) (subs : List Subtitle)
    (hne : subs ≠ []) :
    (parseTranslations text subs).length = subs.length ∧
    ∀ i, i < subs.length → lmGet (buildLineMap text subs) ((i : Nat) : Int) = none →
      (parseTranslations text subs).getD i "" = (subs.getD i default).text := by
  constructor
  · simp [parseTranslations]
  · intro i hi hnone
    have hi' : i < ((List.range subs.length).map (fun i =>
        match lmGet (buildLineMap text subs) ((i : Nat) : Int) with
        | some v => if v = "" then (subs.getD i default).text else v
        | none => (subs.getD i default).text)).length := by
      simpa using hi
    unfold parseTranslations
    rw [List.getD_eq_getElem _ _ hi', List.getElem_map, List.getElem_range]
    simp [hnone]

/-- Witness for C3: a two-caption batch whose response carries only entry
`[1]`; position 1 (0-based) falls back to the original text. -/
theorem parseTranslations_length_fallback_witness :
    (parseTranslations "[1] Solo" demoBatch2).length = 2 ∧
    (parseTranslations "[1] Solo" demoBatch2).getD 1 "" = "s2" := by
  have h := parseTranslations_length_fallback "[1] Solo" demoBatch2 (by decide)
  refine ⟨by rw [h.1]; rfl, ?_⟩
  have h2 := h.2 1 (by decide) (by decide)
  rw [h2]
  rfl

/-- C7 counterexample: for the batch `demoBatch2` and the response
`"[2] A\nB"`, position 0 is the lowest position not yet filled when the
non-matching line `B` is processed, so the claim requires output position 0
to be `"B"`; the code instead assigns `B` to key `lineMap.size = 1`
(overwriting the numbered entry) and position 0 falls back to the original
source text. -/
theorem parseTranslations_unnumbered_counterexample :
    parseTranslations "[2] A\nB" demoBatch2 = ["s1", "B"] ∧
    (parseTranslations "[2] A\nB" demoBatch2).getD 0 "" ≠ "B" := by
  constructor <;> decide

/-- C7 amended: every non-matching, non-empty response line processed while
the map is smaller than the batch is assigned to the key equal to the
current number of map entries (`lineMap.size`) — which coincides with the
lowest unfilled position only when the filled keys are exactly
`0 … size-1`, and may overwrite an already-filled position otherwise. -/
theorem processLine_unnumbered_amended (n : Nat) (m : List (Int × String))
    (line : List Char) (hm : matchNumbered line = none)
    (hne : trimList line ≠ []) (hlt : m.length < n) :
    processLine n m line = lmSet m ((m.length : Nat) : Int) (.mk (trimList line)) := by
  unfold processLine
  rw [hm]
  simp [hne, hlt]

/-- Witness for C7's amended claim: the line `B` lands on key 1 (the map
size), overwriting the entry `(1, "A")`. -/
theorem processLine_unnumbered_amended_witness :
    processLine 2 [((1 : Int), "A")] ['B'] = [((1 : Int), "B")] := by
  have h := processLine_unnumbered_amended 2 [((1 : Int), "A")] ['B']
    (by decide) (by decide) (by decide)
  rw [h]
  decide

/-! ### Retry executor: C4. -/

theorem retryLoop_all_retryable {α : Type} (e : Nat → String) (mr bd : Nat)
    (he : ∀ k, isRetryable (e k) = true) :
    ∀ (n a used : Nat) (sleeps : List Nat) (lastErr : String),
    a + n = mr + 1 → 1 ≤ a →
    retryLoop (α := α) (fun k => .error (e k)) mr bd (attemptNums a (n + 1)) used
      sleeps lastErr =
      (.error (e (mr + 1)), used + n + 1,
        sleeps ++ (attemptNums a n).map (fun k => bd * 2 ^ (k - 1)))
  | 0, a, used, sleeps, lastErr, hsum, ha => by
    have haeq : a = mr + 1 := by omega
    subst haeq
    simp [attemptNums, retryLoop]
  | n + 1, a, used, sleeps, lastErr, hsum, ha => by
    have hle : ¬ mr < a := by omega
    have hstep : retryLoop (α := α) (fun k => .error (e k)) mr bd
        (attemptNums a (n + 1 + 1)) used sleeps lastErr =
        (if mr < a then (.error (e a), used + 1, sleeps)
         else if isRetryable (e a) then
           retryLoop (fun k => .error (e k)) mr bd (attemptNums (a + 1) (n + 1))
             (used + 1) (sleeps ++ [bd * 2 ^ (a - 1)]) (e a)
         else (.error (e a), used + 1, sleeps)) := rfl
    rw [hstep, if_neg hle, if_pos (he a)]
    rw [retryLoop_all_retryable e mr bd he n (a + 1) (used + 1)
      (sleeps ++ [bd * 2 ^ (a - 1)]) (e a) (by omega) (by omega)]
    simp only [List.map_cons, List.append_assoc, List.singleton_append,
      Prod.mk.injEq]
    exact ⟨trivial, by omega, rfl⟩

/-- C4: an operation failing retryably on every attempt is attempted exactly
`maxRetries + 1` times, the last error is re-raised, and the sleep before
the attempt after the k-th failure is `baseDelay * 2^(k-1)`; an operation
whose first failure is non-retryable is attempted exactly once and its
error raised immediately. -/
theorem fetchWithRetry_spec {α : Type} (mr bd : Nat) (e : Nat → String)
    (he : ∀ k, isRetryable (e k) = true)
    (op2 : Nat → Except String α) (e2 : String) (h2 : op2 1 = .error e2)
    (hr2 : isRetryable e2 = false) :
    fetchWithRetry (α := α) (fun k => .error (e k)) mr bd =
      (.error (e (mr + 1)), mr + 1,
        (attemptNums 1 mr).map (fun k => bd * 2 ^ (k - 1))) ∧
    fetchWithRetry op2 mr bd = (.error e2, 1, []) := by
  constructor
  · unfold fetchWithRetry
    have h := retryLoop_all_retryable (α := α) e mr bd he mr 1 0 [] "Unknown error"
      (by omega) (by omega)
    simpa using h
  · unfold fetchWithRetry
    have h3 : attemptNums 1 (mr + 1) = 1 :: attemptNums 2 mr := rfl
    rw [h3]
    simp only [retryLoop, h2, hr2]
    split
    · rfl
    · simp

/-- Witness for C4 with `maxRetries = 1`, `baseDelay = 2`: two attempts and
one back-off sleep of `2` for the always-retryable error, one attempt and no
sleep for the non-retryable one. -/
theorem fetchWithRetry_spec_witness :
    fetchWithRetry (α := Unit) (fun _ => .error "HTTP 429") 1 2 =
      (.error "HTTP 429", 2, [2]) ∧
    fetchWithRetry (α := Unit) (fun _ => .error "boom") 1 2 =
      (.error "boom", 1, []) := by
  have h := fetchWithRetry_spec (α := Unit) 1 2 (fun _ => "HTTP 429")
    (fun _ => show isRetryable "HTTP 429" = true by decide)
    (fun _ => .error "boom") "boom" rfl (by decide)
  exact ⟨h.1, h.2⟩

/-! ### Provider detection: C6. -/

theorem listStartsWith_iff (p : List Char) :
    ∀ l : List Char, listStartsWith p l = true ↔ ∃ t, l = p ++ t := by
  induction p with
  | nil =>
    intro l
    simp [listStartsWith]
  | cons c cs ih =>
    intro l
    cases l with
    | nil =>
      simp [listStartsWith]
    | cons d ds =>
      simp only [listStartsWith, Bool.and_eq_true, beq_iff_eq, ih ds,
        List.cons_append, List.cons.injEq]
      constructor
      · rintro ⟨rfl, t, rfl⟩
        exact ⟨t, rfl, rfl⟩
      · rintro ⟨t, rfl, rfl⟩
        exact ⟨rfl, t, rfl⟩

theorem not_kimi_of_ant (l : List Char)
    (h : listStartsWith "sk-ant-".data l = true) :
    listStartsWith "sk-kimi-".data l = false := by
  obtain ⟨t, rfl⟩ := (listStartsWith_iff _ _).mp h
  rfl

theorem sk_of_kimi (l : List Char)
    (h : listStartsWith "sk-kimi-".data l = true) :
    listStartsWith "sk-".data l = true := by
  obtain ⟨t, rfl⟩ := (listStartsWith_iff _ _).mp h
  rfl

theorem sk_of_ant (l : List Char)
    (h : listStartsWith "sk-ant-".data l = true) :
    listStartsWith "sk-".data l = true := by
  obtain ⟨t, rfl⟩ := (listStartsWith_iff _ _).mp h
  rfl

theorem not_sk_of_aiza (l : List Char)
    (h : listStartsWith "AIza".data l = true) :
    listStartsWith "sk-".data l = false := by
  obtain ⟨t, rfl⟩ := (listStartsWith_iff _ _).mp h
  rfl

/-- C6: the provider chosen by `createProvider` from an explicit API key
with no explicit provider name follows the documented prefix table, with
`openai` as the default for unrecognized prefixes. -/
theorem detectProvider_table (key : String) :
    (strStartsWith key "sk-kimi-" = true → providerFromKey key = .kimi) ∧
    (strStartsWith key "sk-ant-" = true → providerFromKey key = .anthropic) ∧
    (strStartsWith key "sk-" = true → strStartsWith key "sk-kimi-" = false →
      strStartsWith key "sk-ant-" = false → providerFromKey key = .openai) ∧
    (strStartsWith key "AIza" = true → providerFromKey key = .gemini) ∧
    (strStartsWith key "sk-" = false → strStartsWith key "AIza" = false →
      providerFromKey key = .openai) := by
  refine ⟨?_, ?_, ?_, ?_, ?_⟩
  · intro h
    simp [providerFromKey, detectProvider, h]
  · intro h
    have hk : strStartsWith key "sk-kimi-" = false := not_kimi_of_ant key.data h
    have hs : strStartsWith key "sk-" = true := sk_of_ant key.data h
    simp [providerFromKey, detectProvider, h, hk, hs]
  · intro h hk ha
    simp [providerFromKey, detectProvider, h, hk, ha]
  · intro h
    have hs : strStartsWith key "sk-" = false := not_sk_of_aiza key.data h
    have hk : strStartsWith key "sk-kimi-" = false := by
      cases hcase : strStartsWith key "sk-kimi-" with
      | false => rfl
      | true =>
        have h9 : strStartsWith key "sk-" = true := sk_of_kimi key.data hcase
        rw [h9] at hs
        cases hs
    have ha : strStartsWith key "sk-ant-" = false := by
      cases hcase : strStartsWith key "sk-ant-" with
      | false => rfl
      | true =>
        have h9 : strStartsWith key "sk-" = true := sk_of_ant key.data hcase
        rw [h9] at hs
        cases hs
    simp [providerFromKey, detectProvider, h, hk, ha, hs]
  · intro hs hA
    have hk : strStartsWith key "sk-kimi-" = false := by
      cases hcase : strStartsWith key "sk-kimi-" with
      | false => rfl
      | true =>
        have h9 : strStartsWith key "sk-" = true := sk_of_kimi key.data hcase
        rw [h9] at hs
        cases hs
    have ha : strStartsWith key "sk-ant-" = false := by
      cases hcase : strStartsWith key "sk-ant-" with
      | false => rfl
      | true =>
        have h9 : strStartsWith key "sk-" = true := sk_of_ant key.data hcase
        rw [h9] at hs
        cases hs
    simp [providerFromKey, detectProvider, hk, ha, hs, hA]

/-- Witness for C6 at the five keys of the spec's detection table. -/
theorem detectProvider_table_witness :
    providerFromKey "sk-kimi-x" = .kimi ∧ providerFromKey "sk-ant-x" = .anthropic ∧
    providerFromKey "sk-x" = .openai ∧ providerFromKey "AIzaXXX" = .gemini ∧
    providerFromKey "zzz" = .openai :=
  ⟨(detectProvider_table "sk-kimi-x").1 (by decide),
   (detectProvider_table "sk-ant-x").2.1 (by decide),
   (detectProvider_table "sk-x").2.2.1 (by decide) (by decide) (by decide),
   (detectProvider_table "AIzaXXX").2.2.2.1 (by decide),
   (detectProvider_table "zzz").2.2.2.2 (by decide) (by decide)⟩

/-! ### Whisper provider: C9. -/

/-- C9: the whisper provider construction raises whenever the target
language is not English (case-insensitively `english` or `en`), and the
`translateBatch` of any successfully constructed whisper provider raises on
every batch without translating. -/
theorem whisperProvider_spec (targetLang : String) :
    (lowerStr targetLang ≠ "english" → lowerStr targetLang ≠ "en" →
      createWhisperProvider targetLang =
        .error ("Whisper can only translate TO English, not to " ++ targetLang)) ∧
    (∀ p, createWhisperProvider targetLang = .ok p →
      ∀ batch : List Subtitle,
        p.translateBatch batch =
          .error "Whisper provider does not support text translation.") := by
  constructor
  · intro h1 h2
    unfold createWhisperProvider
    rw [if_pos ⟨h1, h2⟩]
  · intro p hp batch
    unfold createWhisperProvider at hp
    split at hp
    · cases hp
    · cases hp
      rfl

/-- Witness for C9: construction at `Hindi` raises; the provider built at
`English` raises from `translateBatch` on a concrete batch. -/
theorem whisperProvider_spec_witness :
    createWhisperProvider "Hindi" =
      .error "Whisper can only translate TO English, not to Hindi" ∧
    WhisperProvider.translateBatch
      ⟨.whisper, fun _ => .error "Whisper provider does not support text translation."⟩
      demoBatch2 =
      .error "Whisper provider does not support text translation." :=
  ⟨(whisperProvider_spec "Hindi").1 (by decide) (by decide),
   (whisperProvider_spec "English").2
     ⟨.whisper, fun _ => .error "Whisper provider does not support text translation."⟩
     rfl demoBatch2⟩

/-! ### Character and list facts underlying the codec proofs. -/

theorem digit_cases (c : Char) (h : c.isDigit = true) :
    c = '0' ∨ c = '1' ∨ c = '2' ∨ c = '3' ∨ c = '4' ∨ c = '5' ∨ c = '6' ∨
    c = '7' ∨ c = '8' ∨ c = '9' := by
  simp only [Char.isDigit, decide_eq_true_eq, Bool.and_eq_true, ge_iff_le,
    UInt32.le_def, BitVec.le_def] at h
  have hv : c.toNat = 48 ∨ c.toNat = 49 ∨ c.toNat = 50 ∨ c.toNat = 51 ∨
      c.toNat = 52 ∨ c.toNat = 53 ∨ c.toNat = 54 ∨ c.toNat = 55 ∨
      c.toNat = 56 ∨ c.toNat = 57 := by
    have h1 : 48 ≤ c.toNat := by
      have := h.1
      simp [Char.toNat, UInt32.toNat] at *
      omega
    have h2 : c.toNat ≤ 57 := by
      have := h.2
      simp [Char.toNat, UInt32.toNat] at *
      omega
    omega
  have hc := Char.ofNat_toNat c
  rcases hv with hv | hv | hv | hv | hv | hv | hv | hv | hv | hv <;>
    rw [hv] at hc <;> rw [← hc] <;> simp

theorem digit_not_ws (c : Char) (h : c.isDigit = true) : c.isWhitespace = false := by
  rcases digit_cases c h with rfl | rfl | rfl | rfl | rfl | rfl | rfl | rfl | rfl | rfl <;>
    decide

theorem digit_ne (c x : Char) (h : c.isDigit = true) (hx : x.isDigit = false) : c ≠ x := by
  intro he
  subst he
  rw [h] at hx
  cases hx

theorem trimList_ne_nil (l : List Char) (c : Char) (hc : c ∈ l)
    (hw : c.isWhitespace = false) : trimList l ≠ [] := by
  intro h
  unfold trimList at h
  rw [List.reverse_eq_nil_iff, List.dropWhile_eq_nil_iff] at h
  have hall : ∀ x ∈ l.dropWhile Char.isWhitespace, x.isWhitespace = true := by
    intro x hx
    exact h x (List.mem_reverse.mpr hx)
  have : c.isWhitespace = true := by
    rcases List.mem_append.mp
        ((List.takeWhile_append_dropWhile Char.isWhitespace l) ▸ hc) with hm | hm
    · exact List.mem_takeWhile_imp hm
    · exact hall c hm
  rw [hw] at this
  cases this

theorem trimList_head (c : Char) (l : List Char) (hw : c.isWhitespace = false) :
    ∃ r, trimList (c :: l) = c :: r := by
  unfold trimList
  rw [List.dropWhile_cons_of_neg (by simp [hw]), List.reverse_cons,
    List.dropWhile_append]
  split
  · rw [List.dropWhile_cons_of_neg (by simp [hw])]
    exact ⟨[], by simp⟩
  · exact ⟨(List.dropWhile Char.isWhitespace l.reverse).reverse,
      by rw [List.reverse_append]; simp⟩

theorem trimList_of_no_ws (l : List Char) (h : ∀ c ∈ l, c.isWhitespace = false) :
    trimList l = l := by
  unfold trimList
  have h1 : l.dropWhile Char.isWhitespace = l := by
    cases l with
    | nil => rfl
    | cons c rest => exact List.dropWhile_cons_of_neg (by simp [h c (by simp)])
  rw [h1]
  have h2 : l.reverse.dropWhile Char.isWhitespace = l.reverse := by
    cases hrev : l.reverse with
    | nil => rfl
    | cons c rest =>
      refine List.dropWhile_cons_of_neg ?_
      have : c ∈ l := by
        rw [← List.mem_reverse, hrev]
        simp
      simp [h c this]
  rw [h2, List.reverse_reverse]

theorem splitCharAux_ne_nil (sep : Char) :
    ∀ (l acc : List Char), splitCharAux sep l acc ≠ []
  | [], acc => by simp [splitCharAux]
  | c :: rest, acc => by
    simp only [splitCharAux]
    split
    · simp
    · exact splitCharAux_ne_nil sep rest _

theorem splitCharAux_append_sep (sep : Char) (b : List Char) :
    ∀ (a acc : List Char), sep ∉ a →
    splitCharAux sep (a ++ sep :: b) acc = (acc.reverse ++ a) :: splitChar sep b
  | [], acc, _ => by simp [splitCharAux, splitChar]
  | c :: a', acc, h => by
    have hc : ¬ (c = sep) := fun he => h (by simp [he])
    have hstep : splitCharAux sep ((c :: a') ++ sep :: b) acc =
        if c = sep then acc.reverse :: splitCharAux sep (a' ++ sep :: b) []
        else splitCharAux sep (a' ++ sep :: b) (c :: acc) := rfl
    rw [hstep, if_neg hc,
      splitCharAux_append_sep sep b a' (c :: acc) (fun hm => h (by simp [hm]))]
    simp

theorem splitChar_append_sep (sep : Char) (a b : List Char) (h : sep ∉ a) :
    splitChar sep (a ++ sep :: b) = a :: splitChar sep b := by
  unfold splitChar
  rw [splitCharAux_append_sep sep b a [] h]
  simp [splitChar]

theorem splitCharAux_no_sep (sep : Char) :
    ∀ (a acc : List Char), sep ∉ a → splitCharAux sep a acc = [acc.reverse ++ a]
  | [], acc, _ => by simp [splitCharAux]
  | c :: a', acc, h => by
    have hc : ¬ (c = sep) := fun he => h (by simp [he])
    have hstep : splitCharAux sep (c :: a') acc =
        if c = sep then acc.reverse :: splitCharAux sep a' []
        else splitCharAux sep a' (c :: acc) := rfl
    rw [hstep, if_neg hc,
      splitCharAux_no_sep sep a' (c :: acc) (fun hm => h (by simp [hm]))]
    simp

theorem splitChar_no_sep (sep : Char) (a : List Char) (h : sep ∉ a) :
    splitChar sep a = [a] := by
  unfold splitChar
  rw [splitCharAux_no_sep sep a [] h]
  simp

theorem splitCharAux_append_last (sep : Char) :
    ∀ (a acc : List Char),
    splitCharAux sep (a ++ [sep]) acc = splitCharAux sep a acc ++ [[]]
  | [], acc => by simp [splitCharAux]
  | c :: a', acc => by
    have hstep1 : splitCharAux sep ((c :: a') ++ [sep]) acc =
        if c = sep then acc.reverse :: splitCharAux sep (a' ++ [sep]) []
        else splitCharAux sep (a' ++ [sep]) (c :: acc) := rfl
    have hstep2 : splitCharAux sep (c :: a') acc =
        if c = sep then acc.reverse :: splitCharAux sep a' []
        else splitCharAux sep a' (c :: acc) := rfl
    rw [hstep1, hstep2]
    split
    · rw [splitCharAux_append_last sep a' []]
      simp
    · exact splitCharAux_append_last sep a' _

theorem splitChar_append_last (sep : Char) (a : List Char) :
    splitChar sep (a ++ [sep]) = splitChar sep a ++ [[]] :=
  splitCharAux_append_last sep a []

theorem joinSep_splitCharAux (sep : Char) :
    ∀ (l acc : List Char), joinSep sep (splitCharAux sep l acc) = acc.reverse ++ l
  | [], acc => by simp [splitCharAux, joinSep]
  | c :: rest, acc => by
    have hstep : splitCharAux sep (c :: rest) acc =
        if c = sep then acc.reverse :: splitCharAux sep rest []
        else splitCharAux sep rest (c :: acc) := rfl
    rw [hstep]
    split
    · rename_i hc
      obtain ⟨p, ps, hps⟩ : ∃ p ps, splitCharAux sep rest [] = p :: ps := by
        cases hx : splitCharAux sep rest [] with
        | nil => exact absurd hx (splitCharAux_ne_nil sep rest [])
        | cons p ps => exact ⟨p, ps, rfl⟩
      rw [hps]
      show acc.reverse ++ sep :: joinSep sep (p :: ps) = acc.reverse ++ c :: rest
      rw [← hps, joinSep_splitCharAux sep rest []]
      simp [hc]
    · rename_i hc
      rw [joinSep_splitCharAux sep rest (c :: acc)]
      simp

theorem joinSep_splitChar (sep : Char) (l : List Char) :
    joinSep sep (splitChar sep l) = l := by
  unfold splitChar
  rw [joinSep_splitCharAux]
  simp

theorem takeWhile_all (p : Char → Bool) :
    ∀ l : List Char, (∀ c ∈ l, p c = true) → l.takeWhile p = l
  | [], _ => rfl
  | c :: rest, h => by
    rw [List.takeWhile_cons_of_pos (h c (by simp))]
    rw [takeWhile_all p rest (fun x hx => h x (by simp [hx]))]

theorem takeWhile_digit_boundary (c0 : Char) (B : List Char) (hc : c0.isDigit = false) :
    ∀ A : List Char, (∀ c ∈ A, Char.isDigit c = true) →
    (A ++ c0 :: B).takeWhile Char.isDigit = A ∧
    (A ++ c0 :: B).dropWhile Char.isDigit = c0 :: B
  | [], _ => by
    constructor
    · exact List.takeWhile_cons_of_neg (by simp [hc])
    · exact List.dropWhile_cons_of_neg (by simp [hc])
  | c :: A', h => by
    have h1 := takeWhile_digit_boundary c0 B hc A' (fun x hx => h x (by simp [hx]))
    constructor
    · rw [List.cons_append, List.takeWhile_cons_of_pos (h c (by simp)), h1.1]
    · rw [List.cons_append, List.dropWhile_cons_of_pos (h c (by simp)), h1.2]

theorem natDigitsAux_digits :
    ∀ (fuel n : Nat) (acc : List Char), (∀ c ∈ acc, c.isDigit = true) →
    ∀ c ∈ natDigitsAux fuel n acc, c.isDigit = true
  | 0, n, acc, hacc => by simpa [natDigitsAux] using hacc
  | fuel + 1, n, acc, hacc => by
    have hd : (Char.ofNat (48 + n % 10)).isDigit = true := by
      have h10 : n % 10 < 10 := Nat.mod_lt _ (by omega)
      revert h10
      generalize n % 10 = m
      intro h10
      interval_cases m <;> decide
    simp only [natDigitsAux]
    split
    · intro c hc
      rcases List.mem_cons.mp hc with rfl | hc
      · exact hd
      · exact hacc c hc
    · refine natDigitsAux_digits fuel (n / 10) _ ?_
      intro c hc
      rcases List.mem_cons.mp hc with rfl | hc
      · exact hd
      · exact hacc c hc

theorem natDigits_digits (n : Nat) : ∀ c ∈ natDigits n, c.isDigit = true :=
  natDigitsAux_digits (n + 1) n [] (by simp)

theorem natDigitsAux_ne_nil :
    ∀ (fuel n : Nat) (acc : List Char), acc ≠ [] → natDigitsAux fuel n acc ≠ []
  | 0, _, acc, h => by simpa [natDigitsAux] using h
  | fuel + 1, n, acc, h => by
    simp only [natDigitsAux]
    split
    · simp
    · exact natDigitsAux_ne_nil fuel _ _ (by simp)

theorem natDigits_ne_nil (n : Nat) : natDigits n ≠ [] := by
  unfold natDigits
  simp only [natDigitsAux]
  split
  · simp
  · exact natDigitsAux_ne_nil n _ _ (by simp)

theorem padStart2_natDigits (a b : Char) (ha : a.isDigit = true)
    (hb : b.isDigit = true) :
    padStart2 (natDigits (digitsVal [a, b])) = [a, b] := by
  rcases digit_cases a ha with rfl | rfl | rfl | rfl | rfl | rfl | rfl | rfl | rfl | rfl <;>
    rcases digit_cases b hb with rfl | rfl | rfl | rfl | rfl | rfl | rfl | rfl | rfl | rfl <;>
    decide

theorem jsParseInt_digits (cs : List Char) (hne : cs ≠ [])
    (hd : ∀ c ∈ cs, c.isDigit = true) :
    jsParseInt cs = some ((digitsVal cs : Nat) : Int) := by
  obtain ⟨c, rest, rfl⟩ : ∃ c rest, cs = c :: rest := by
    cases cs with
    | nil => exact absurd rfl hne
    | cons c rest => exact ⟨c, rest, rfl⟩
  have hc := hd c (by simp)
  have hws : c.isWhitespace = false := digit_not_ws c hc
  have hpd : parseDigits (c :: rest) = some (digitsVal (c :: rest)) := by
    unfold parseDigits
    rw [takeWhile_all Char.isDigit (c :: rest) hd]
    simp
  have h1 : c ≠ '-' := digit_ne c '-' hc (by decide)
  have h2 : c ≠ '+' := digit_ne c '+' hc (by decide)
  unfold jsParseInt
  rw [List.dropWhile_cons_of_neg (by simp [hws])]
  split
  · rename_i heq
    rw [List.cons.injEq] at heq
    exact absurd heq.1 h1
  · rename_i heq
    rw [List.cons.injEq] at heq
    exact absurd heq.1 h2
  · rw [hpd]
    rfl

theorem normalizeLineEndings_eq_self :
    ∀ l : List Char, '\r' ∉ l → normalizeLineEndings l = l
  | [], _ => rfl
  | c :: rest, h => by
    have hc : c ≠ '\r' := fun he => h (by simp [he])
    have hr : '\r' ∉ rest := fun hm => h (by simp [hm])
    rw [normalizeLineEndings.eq_def]
    split
    · rename_i heq
      simp at heq
    · rename_i heq
      rw [List.cons.injEq] at heq
      exact absurd heq.1 hc
    · rename_i heq
      rw [List.cons.injEq] at heq
      exact absurd heq.1 hc
    · rename_i heq
      rw [List.cons.injEq] at heq
      obtain ⟨h1, h2⟩ := heq
      subst h1
      subst h2
      rw [normalizeLineEndings_eq_self rest hr]

theorem hasNN_cons (c : Char) (l : List Char) :
    hasNN (c :: l) = (((c == '\n') && (l.head? == some '\n')) || hasNN l) := by
  cases l with
  | nil =>
    have h0 : hasNN [c] = false := by
      rw [hasNN.eq_def]
      split
      · rename_i heq
        simp at heq
      · rename_i heq
        rw [List.cons.injEq] at heq
        obtain ⟨-, h2⟩ := heq
        rw [← h2]
        rfl
      · rfl
    rw [h0]
    simp [show hasNN ([] : List Char) = false from rfl]
  | cons d l' =>
    by_cases hc : c = '\n'
    · by_cases hd : d = '\n'
      · subst hc
        subst hd
        rw [show hasNN ('\n' :: '\n' :: l') = true from rfl]
        simp
      · subst hc
        have hdb : (d == '\n') = false := by simp [hd]
        have h0 : hasNN ('\n' :: d :: l') = hasNN (d :: l') := by
          rw [hasNN.eq_def]
          split
          · rename_i heq
            rw [List.cons.injEq, List.cons.injEq] at heq
            exact absurd heq.2.1 hd
          · rename_i heq
            rw [List.cons.injEq] at heq
            rw [heq.2]
          · rename_i heq
            simp at heq
        rw [h0]
        simp [hdb]
    · have hcb : (c == '\n') = false := by simp [hc]
      have h0 : hasNN (c :: d :: l') = hasNN (d :: l') := by
        rw [hasNN.eq_def]
        split
        · rename_i heq
          rw [List.cons.injEq] at heq
          exact absurd heq.1 hc
        · rename_i heq
          rw [List.cons.injEq] at heq
          rw [heq.2]
        · rename_i heq
          simp at heq
      rw [h0]
      simp [hcb]

theorem hasNN_append_no_nl (A : List Char) (tail : List Char)
    (hA : '\n' ∉ A) (ht : hasNN tail = false)
    (hh : A = [] → hasNN tail = false) :
    hasNN (A ++ tail) = false := by
  induction A with
  | nil => simpa using ht
  | cons c A' ih =>
    have hc : c ≠ '\n' := fun he => hA (by simp [he])
    rw [List.cons_append, hasNN_cons]
    have hA' : '\n' ∉ A' := fun hm => hA (by simp [hm])
    rw [ih hA' (fun _ => ht)]
    simp [hc]

/-! ### The `split(/\n\n+/)` machine on well-formed block lists. -/

theorem hasNN_cons_false {c : Char} {l : List Char} (h : hasNN (c :: l) = false) :
    hasNN l = false := by
  rw [hasNN_cons] at h
  rcases Bool.or_eq_false_iff.mp h with ⟨-, h2⟩
  exact h2

theorem hasNN_cons_head {c : Char} {l : List Char} (h : hasNN (c :: l) = false)
    (hc : c = '\n') : l.head? ≠ some '\n' := by
  rw [hasNN_cons] at h
  rcases Bool.or_eq_false_iff.mp h with ⟨h1, -⟩
  subst hc
  intro hhead
  rw [hhead] at h1
  simp at h1

theorem foldr_sb_two (cur : List Char) (done : List (List Char)) :
    ∀ b : List Char, hasNN b = false → b.getLast? ≠ some '\n' → b ≠ [] →
    b.foldr splitBlocksStep (2, cur, done) =
      (if b.head? = some '\n' then ((1 : Nat), b.tail, cur :: done)
       else ((0 : Nat), b, cur :: done))
  | [], _, _, hne => absurd rfl hne
  | [c], _, hl, _ => by
    have hc : c ≠ '\n' := by
      intro he
      exact hl (by simp [he])
    simp only [List.foldr_cons, List.foldr_nil, splitBlocksStep, if_neg hc]
    rw [if_pos (by omega), if_neg (by simp [hc])]
  | c :: d :: b'', hnn, hl, _ => by
    have hrec := foldr_sb_two cur done (d :: b'') (hasNN_cons_false hnn)
      (by exact hl) (by simp)
    by_cases hc : c = '\n'
    · have hd : d ≠ '\n' := by
        have := hasNN_cons_head hnn hc
        simpa using this
      rw [List.foldr_cons, hrec, if_neg (by simp [hd])]
      subst hc
      simp [splitBlocksStep]
    · rw [List.foldr_cons, hrec]
      by_cases hd : d = '\n'
      · rw [if_pos (by simp [hd])]
        subst hd
        simp [splitBlocksStep, hc]
      · rw [if_neg (by simp [hd])]
        simp [splitBlocksStep, hc]

theorem foldr_sb_one (cur : List Char) (done : List (List Char)) :
    ∀ b : List Char, hasNN b = false → b.getLast? ≠ some '\n' → b ≠ [] →
    b.foldr splitBlocksStep (1, cur, done) =
      (if b.head? = some '\n' then ((1 : Nat), b.tail ++ '\n' :: cur, done)
       else ((0 : Nat), b ++ '\n' :: cur, done))
  | [], _, _, hne => absurd rfl hne
  | [c], _, hl, _ => by
    have hc : c ≠ '\n' := by
      intro he
      exact hl (by simp [he])
    simp only [List.foldr_cons, List.foldr_nil, splitBlocksStep, if_neg hc]
    rw [if_neg (by omega), if_neg (by simp [hc])]
    simp
  | c :: d :: b'', hnn, hl, _ => by
    have hrec := foldr_sb_one cur done (d :: b'') (hasNN_cons_false hnn)
      (by exact hl) (by simp)
    by_cases hc : c = '\n'
    · have hd : d ≠ '\n' := by
        have := hasNN_cons_head hnn hc
        simpa using this
      rw [List.foldr_cons, hrec, if_neg (by simp [hd])]
      subst hc
      simp [splitBlocksStep]
    · rw [List.foldr_cons, hrec]
      by_cases hd : d = '\n'
      · rw [if_pos (by simp [hd])]
        subst hd
        simp [splitBlocksStep, hc]
      · rw [if_neg (by simp [hd])]
        simp [splitBlocksStep, hc]

theorem lastPieces_ne_nil : ∀ bs : List (List Char), bs ≠ [] → lastPieces bs ≠ []
  | [], h => absurd rfl h
  | [b], _ => by simp [lastPieces]
  | b :: b2 :: bs, _ => by simp [lastPieces]

theorem headD_cons_tail {α : Type} (l : List α) (d : α) (h : l ≠ []) :
    l = l.headD d :: l.tail := by
  cases l with
  | nil => exact absurd rfl h
  | cons a t => rfl

theorem sb_state :
    ∀ bs : List (List Char),
    (∀ b ∈ bs, b ≠ [] ∧ b.head? ≠ some '\n' ∧ b.getLast? ≠ some '\n' ∧
      hasNN b = false) →
    bs ≠ [] →
    (joinSepL "\n\n".data bs ++ ['\n']).foldr splitBlocksStep (0, [], []) =
      ((0 : Nat), (lastPieces bs).headD [], (lastPieces bs).tail)
  | [], _, hne => absurd rfl hne
  | [b], hgood, _ => by
    obtain ⟨hne, hh, hl, hnn⟩ := hgood b (by simp)
    rw [show joinSepL "\n\n".data [b] = b from rfl, List.foldr_append]
    rw [show (['\n'] : List Char).foldr splitBlocksStep (0, [], []) =
      ((1 : Nat), ([] : List Char), ([] : List (List Char))) from rfl]
    rw [foldr_sb_one [] [] b hnn hl hne, if_neg hh]
    rfl
  | b :: b2 :: bs, hgood, _ => by
    obtain ⟨hne, hh, hl, hnn⟩ := hgood b (by simp)
    have hrest := sb_state (b2 :: bs)
      (fun x hx => hgood x (List.mem_cons_of_mem b hx)) (by simp)
    rw [show joinSepL "\n\n".data (b :: b2 :: bs) =
      b ++ "\n\n".data ++ joinSepL "\n\n".data (b2 :: bs) from rfl]
    rw [List.append_assoc, List.append_assoc, List.foldr_append, List.foldr_append,
      hrest]
    rw [show ("\n\n".data).foldr splitBlocksStep
        ((0 : Nat), (lastPieces (b2 :: bs)).headD [], (lastPieces (b2 :: bs)).tail) =
        ((2 : Nat), (lastPieces (b2 :: bs)).headD [], (lastPieces (b2 :: bs)).tail)
      from rfl]
    rw [foldr_sb_two _ _ b hnn hl hne, if_neg hh]
    rw [show lastPieces (b :: b2 :: bs) = b :: lastPieces (b2 :: bs) from rfl]
    rw [show (b :: lastPieces (b2 :: bs)).headD [] = b from rfl,
      show (b :: lastPieces (b2 :: bs)).tail = lastPieces (b2 :: bs) from rfl]
    rw [← headD_cons_tail (lastPieces (b2 :: bs)) [] (lastPieces_ne_nil _ (by simp))]

theorem splitBlocks_join (bs : List (List Char))
    (hgood : ∀ b ∈ bs, b ≠ [] ∧ b.head? ≠ some '\n' ∧ b.getLast? ≠ some '\n' ∧
      hasNN b = false) (hne : bs ≠ []) :
    splitBlocks (joinSepL "\n\n".data bs ++ ['\n']) = lastPieces bs := by
  unfold splitBlocks
  rw [sb_state bs hgood hne]
  rw [show (match ((0 : Nat), (lastPieces bs).headD [], (lastPieces bs).tail) with
      | (run, cur, done) =>
        if 2 ≤ run then [] :: cur :: done
        else (List.replicate run '\n' ++ cur) :: done) =
      ((lastPieces bs).headD [] :: (lastPieces bs).tail) from rfl]
  rw [← headD_cons_tail (lastPieces bs) [] (lastPieces_ne_nil _ hne)]

/-! ### Timestamp shapes and the regex scanners. -/

theorem isNormTime_shape (cs : List Char) (h : isNormTime cs = true) :
    ∃ a b d e g h2 j k l, cs = [a, b, ':', d, e, ':', g, h2, ',', j, k, l] ∧
      a.isDigit = true ∧ b.isDigit = true ∧ d.isDigit = true ∧ e.isDigit = true ∧
      g.isDigit = true ∧ h2.isDigit = true ∧ j.isDigit = true ∧ k.isDigit = true ∧
      l.isDigit = true := by
  rcases cs with _ | ⟨a, _ | ⟨b, _ | ⟨c, _ | ⟨d, _ | ⟨e, _ | ⟨f, _ | ⟨g, _ | ⟨h2,
    _ | ⟨i, _ | ⟨j, _ | ⟨k, _ | ⟨l, _ | ⟨m, rest⟩⟩⟩⟩⟩⟩⟩⟩⟩⟩⟩⟩⟩
  all_goals simp [isNormTime] at h
  obtain ⟨⟨⟨⟨⟨⟨⟨⟨⟨⟨⟨ha, hb⟩, hc⟩, hd⟩, he⟩, hf⟩, hg⟩, hh2⟩, hi⟩, hj⟩, hk⟩, hl⟩ := h
  subst hc
  subst hf
  subst hi
  exact ⟨a, b, d, e, g, h2, j, k, l, rfl, ha, hb, hd, he, hg, hh2, hj, hk, hl⟩

theorem searchTimePair_head (cs : List Char) (r : List Char × List Char)
    (h : srtPairAt cs = some r) (hne : cs ≠ []) : searchTimePair cs = some r := by
  cases cs with
  | nil => exact absurd rfl hne
  | cons c rest => simp [searchTimePair, h]

theorem searchVttTimePair_head (cs : List Char) (r : List Char × List Char)
    (h : vttPairAt cs = some r) (hne : cs ≠ []) : searchVttTimePair cs = some r := by
  cases cs with
  | nil => exact absurd rfl hne
  | cons c rest => simp [searchVttTimePair, h]

theorem searchAssTime_head (cs : List Char)
    (r : List Char × List Char × List Char × List Char)
    (h : matchAssTimeAt cs = some r) (hne : cs ≠ []) : searchAssTime cs = some r := by
  cases cs with
  | nil => exact absurd rfl hne
  | cons c rest => simp [searchAssTime, h]

theorem searchSrtParts_head (cs : List Char)
    (r : List Char × List Char × List Char × List Char)
    (h : matchSrtParts cs = some r) (hne : cs ≠ []) : searchSrtParts cs = some r := by
  cases cs with
  | nil => exact absurd rfl hne
  | cons c rest => simp [searchSrtParts, h]

theorem srtPairAt_serialized (S E : List Char) (hS : isNormTime S = true)
    (hE : isNormTime E = true) :
    srtPairAt (S ++ ' ' :: '-' :: '-' :: '>' :: ' ' :: E) = some (S, E) := by
  obtain ⟨a, b, d, e, g, h2, j, k, l, rfl, ha, hb, hd, he, hg, hh, hj, hk, hl⟩ :=
    isNormTime_shape S hS
  obtain ⟨a', b', d', e', g', h2', j', k', l', rfl, ha', hb', hd', he', hg', hh', hj',
    hk', hl'⟩ := isNormTime_shape E hE
  have hwa' : a'.isWhitespace = false := digit_not_ws a' ha'
  simp [srtPairAt, matchSrtTime, skipWs, matchArrow, List.dropWhile,
    ha, hb, hd, he, hg, hh, hj, hk, hl, ha', hb', hd', he', hg', hh', hj', hk', hl',
    hwa']

theorem searchTimePair_serialized (S E : List Char) (hS : isNormTime S = true)
    (hE : isNormTime E = true) :
    searchTimePair (S ++ ' ' :: '-' :: '-' :: '>' :: ' ' :: E) = some (S, E) := by
  refine searchTimePair_head _ _ (srtPairAt_serialized S E hS hE) ?_
  obtain ⟨a, b, d, e, g, h2, j, k, l, rfl, -⟩ := isNormTime_shape S hS
  simp

theorem replaceFirst_norm (S : List Char) (hS : isNormTime S = true) :
    replaceFirst '.' ',' S = S := by
  obtain ⟨a, b, d, e, g, h2, j, k, l, rfl, ha, hb, hd, he, hg, hh, hj, hk, hl⟩ :=
    isNormTime_shape S hS
  have f : ∀ c : Char, c.isDigit = true → ¬ (c = '.') := fun c hc =>
    digit_ne c '.' hc (by decide)
  simp [replaceFirst, f a ha, f b hb, f d hd, f e he, f g hg, f h2 hh, f j hj,
    f k hk, f l hl]

theorem normTime_chars (S : List Char) (hS : isNormTime S = true) :
    ∀ x ∈ S, x.isDigit = true ∨ x = ':' ∨ x = ',' := by
  obtain ⟨a, b, d, e, g, h2, j, k, l, rfl, ha, hb, hd, he, hg, hh, hj, hk, hl⟩ :=
    isNormTime_shape S hS
  intro x hx
  simp at hx
  rcases hx with rfl | rfl | rfl | rfl | rfl | rfl | rfl | rfl | rfl | rfl | rfl | rfl <;>
    simp [ha, hb, hd, he, hg, hh, hj, hk, hl]

theorem no_nl_of_normTime (S : List Char) (hS : isNormTime S = true) :
    '\n' ∉ S ∧ '\r' ∉ S := by
  constructor <;> intro hm <;> rcases normTime_chars S hS _ hm with h | h | h <;>
    simp at h

theorem tl_no_nl (S E : List Char) (hS : isNormTime S = true)
    (hE : isNormTime E = true) :
    '\n' ∉ (S ++ ' ' :: '-' :: '-' :: '>' :: ' ' :: E) ∧
    '\r' ∉ (S ++ ' ' :: '-' :: '-' :: '>' :: ' ' :: E) := by
  constructor
  · intro hm
    rcases List.mem_append.mp hm with h | h
    · exact (no_nl_of_normTime S hS).1 h
    · simp at h
      exact (no_nl_of_normTime E hE).1 h
  · intro hm
    rcases List.mem_append.mp hm with h | h
    · exact (no_nl_of_normTime S hS).2 h
    · simp at h
      exact (no_nl_of_normTime E hE).2 h

theorem goodText_parts (T : List Char) (h : goodText T = true) :
    hasNN T = false ∧ T.head? ≠ some '\n' ∧ T.getLast? ≠ some '\n' ∧ '\r' ∉ T ∧
    ∃ ln ∈ splitChar '\n' T, trimList ln ≠ [] := by
  simp only [goodText, Bool.and_eq_true, Bool.not_eq_true', bne_iff_ne, ne_eq,
    List.any_eq_true, Bool.not_eq_eq_eq_not, Bool.not_true, List.isEmpty_eq_false,
    decide_eq_false_iff_not] at h
  obtain ⟨⟨⟨⟨h1, h2⟩, h3⟩, h4⟩, h5⟩ := h
  refine ⟨h1, h2, h3, ?_, h5⟩
  intro hm
  rw [← List.elem_iff] at hm
  rw [List.contains] at h4
  rw [hm] at h4
  cases h4

theorem goodText_ne_nil (T : List Char) (h : goodText T = true) : T ≠ [] := by
  intro hT
  subst hT
  obtain ⟨-, -, -, -, ln, hln, hne⟩ := goodText_parts [] h
  have : ln = [] := by
    have : splitChar '\n' ([] : List Char) = [[]] := rfl
    rw [this] at hln
    simpa using hln
  subst this
  exact hne rfl

theorem natDigits_no_nl (n : Nat) :
    '\n' ∉ natDigits n ∧ '\r' ∉ natDigits n := by
  constructor <;> intro hm <;>
    [exact absurd (natDigits_digits n _ hm) (by decide);
     exact absurd (natDigits_digits n _ hm) (by decide)]

theorem wellformedCaption_parts (c : Subtitle) (hc : wellformedCaption c = true) :
    isNormTime c.startTime.data = true ∧ isNormTime c.endTime.data = true ∧
    goodText c.text.data = true := by
  simp only [wellformedCaption, Bool.and_eq_true] at hc
  exact ⟨hc.1.1, hc.1.2, hc.2⟩

theorem srtBlock_good (i : Nat) (c : Subtitle) (hc : wellformedCaption c = true) :
    srtBlockChars i c ≠ [] ∧ (srtBlockChars i c).head? ≠ some '\n' ∧
    (srtBlockChars i c).getLast? ≠ some '\n' ∧ hasNN (srtBlockChars i c) = false := by
  obtain ⟨hS, hE, hT⟩ := wellformedCaption_parts c hc
  obtain ⟨hTnn, hThead, hTlast, hTcr, -⟩ := goodText_parts _ hT
  have hTne := goodText_ne_nil _ hT
  obtain ⟨a0, A', hA⟩ := List.exists_cons_of_ne_nil (natDigits_ne_nil (i + 1))
  have ha0 : a0.isDigit = true := by
    apply natDigits_digits (i + 1)
    rw [hA]
    simp
  obtain ⟨s0, S', hS0⟩ := List.exists_cons_of_ne_nil
    (by
      obtain ⟨a, b, d, e, g, h2, j, k, l, heq, -⟩ := isNormTime_shape _ hS
      rw [heq]
      simp : c.startTime.data ≠ [])
  have hs0 : s0.isDigit = true := by
    obtain ⟨a, b, d, e, g, h2, j, k, l, heq, ha, -⟩ := isNormTime_shape _ hS
    rw [heq] at hS0
    rw [List.cons.injEq] at hS0
    exact hS0.1 ▸ ha
  refine ⟨?_, ?_, ?_, ?_⟩
  · unfold srtBlockChars
    rw [hA]
    simp
  · unfold srtBlockChars
    rw [hA]
    simp only [List.cons_append, List.head?_cons]
    simp [digit_ne a0 '\n' ha0 (by decide)]
  · unfold srtBlockChars
    rw [List.getLast?_append_of_ne_nil _ (by simp)]
    rw [show ('\n' :: c.text.data : List Char) = ['\n'] ++ c.text.data from rfl]
    rw [List.getLast?_append_of_ne_nil _ hTne]
    exact hTlast
  · unfold srtBlockChars
    rw [List.append_assoc]
    refine hasNN_append_no_nl _ _ (natDigits_no_nl (i + 1)).1 ?_ (fun _ => ?_)
    · rw [List.cons_append, hasNN_cons]
      have hhead : ((c.startTime.data ++ ' ' :: '-' :: '-' :: '>' :: ' ' ::
          c.endTime.data) ++ '\n' :: c.text.data).head? = some s0 := by
        rw [hS0]
        simp
      rw [hhead]
      have hs0ne : (s0 == '\n') = false := by
        simp [digit_ne s0 '\n' hs0 (by decide)]
      have hinner : hasNN ((c.startTime.data ++ ' ' :: '-' :: '-' :: '>' :: ' ' ::
          c.endTime.data) ++ '\n' :: c.text.data) = false := by
        refine hasNN_append_no_nl _ _ (tl_no_nl _ _ hS hE).1 ?_ (fun _ => ?_)
        · rw [hasNN_cons, hTnn]
          cases hh : c.text.data.head? with
          | none => simp [hh]
          | some x =>
            have : x ≠ '\n' := by
              intro he
              rw [he] at hh
              exact hThead hh
            simp [hh, this]
        · rw [hasNN_cons, hTnn]
          cases hh : c.text.data.head? with
          | none => simp [hh]
          | some x =>
            have : x ≠ '\n' := by
              intro he
              rw [he] at hh
              exact hThead hh
            simp [hh, this]
      rw [hinner]
      simp [hs0ne]
    · rw [List.cons_append, hasNN_cons]
      have hhead : ((c.startTime.data ++ ' ' :: '-' :: '-' :: '>' :: ' ' ::
          c.endTime.data) ++ '\n' :: c.text.data).head? = some s0 := by
        rw [hS0]
        simp
      rw [hhead]
      have hs0ne : (s0 == '\n') = false := by
        simp [digit_ne s0 '\n' hs0 (by decide)]
      have hinner : hasNN ((c.startTime.data ++ ' ' :: '-' :: '-' :: '>' :: ' ' ::
          c.endTime.data) ++ '\n' :: c.text.data) = false := by
        refine hasNN_append_no_nl _ _ (tl_no_nl _ _ hS hE).1 ?_ (fun _ => ?_)
        · rw [hasNN_cons, hTnn]
          cases hh : c.text.data.head? with
          | none => simp [hh]
          | some x =>
            have : x ≠ '\n' := by
              intro he
              rw [he] at hh
              exact hThead hh
            simp [hh, this]
        · rw [hasNN_cons, hTnn]
          cases hh : c.text.data.head? with
          | none => simp [hh]
          | some x =>
            have : x ≠ '\n' := by
              intro he
              rw [he] at hh
              exact hThead hh
            simp [hh, this]
      rw [hinner]
      simp [hs0ne]

theorem srt_lines (i : Nat) (c : Subtitle) (hc : wellformedCaption c = true)
    (suffix : List Char) (hsuf : suffix = [] ∨ suffix = ['\n']) :
    (splitChar '\n' (srtBlockChars i c ++ suffix)).filter
        (fun l => trimList l ≠ []) =
      natDigits (i + 1) ::
      (c.startTime.data ++ ' ' :: '-' :: '-' :: '>' :: ' ' :: c.endTime.data) ::
      (splitChar '\n' c.text.data).filter (fun l => trimList l ≠ []) := by
  obtain ⟨hS, hE, hT⟩ := wellformedCaption_parts c hc
  have hAnl : '\n' ∉ natDigits (i + 1) := (natDigits_no_nl (i + 1)).1
  have hTLnl : '\n' ∉ (c.startTime.data ++ ' ' :: '-' :: '-' :: '>' :: ' ' ::
      c.endTime.data) := (tl_no_nl _ _ hS hE).1
  obtain ⟨a0, A', hA⟩ := List.exists_cons_of_ne_nil (natDigits_ne_nil (i + 1))
  have ha0 : a0.isDigit = true := by
    apply natDigits_digits (i + 1)
    rw [hA]
    simp
  obtain ⟨s0, S', hS0⟩ := List.exists_cons_of_ne_nil
    (by
      obtain ⟨a, b, d, e, g, h2, j, k, l, heq, -⟩ := isNormTime_shape _ hS
      rw [heq]
      simp : c.startTime.data ≠ [])
  have hs0 : s0.isDigit = true := by
    obtain ⟨a, b, d, e, g, h2, j, k, l, heq, ha, -⟩ := isNormTime_shape _ hS
    rw [heq] at hS0
    rw [List.cons.injEq] at hS0
    exact hS0.1 ▸ ha
  have hpA : decide (trimList (natDigits (i + 1)) ≠ []) = true := by
    simp only [decide_eq_true_eq]
    refine trimList_ne_nil _ a0 ?_ (digit_not_ws a0 ha0)
    rw [hA]
    simp
  have hpTL : decide (trimList (c.startTime.data ++ ' ' :: '-' :: '-' :: '>' ::
      ' ' :: c.endTime.data) ≠ []) = true := by
    simp only [decide_eq_true_eq]
    refine trimList_ne_nil _ s0 ?_ (digit_not_ws s0 hs0)
    rw [hS0]
    simp
  have hblock : srtBlockChars i c ++ suffix =
      natDigits (i + 1) ++ '\n' ::
        ((c.startTime.data ++ ' ' :: '-' :: '-' :: '>' :: ' ' :: c.endTime.data) ++
          '\n' :: (c.text.data ++ suffix)) := by
    unfold srtBlockChars
    simp
  rw [hblock, splitChar_append_sep _ _ _ hAnl, splitChar_append_sep _ _ _ hTLnl]
  rcases hsuf with rfl | rfl
  · rw [List.append_nil]
    simp only [List.filter_cons, hpA, hpTL, if_true]
  · rw [splitChar_append_last]
    simp only [List.filter_cons, hpA, hpTL, if_true, List.filter_append]
    simp [trimList]

theorem parseSRTBlock_good (i : Nat) (c : Subtitle) (hc : wellformedCaption c = true)
    (suffix : List Char) (hsuf : suffix = [] ∨ suffix = ['\n']) :
    parseSRTBlock (srtBlockChars i c ++ suffix) =
      some { index := (digitsVal (natDigits (i + 1)) : Int),
             startTime := c.startTime, endTime := c.endTime,
             text := .mk (joinSep '\n' ((splitChar '\n' c.text.data).filter
               (fun l => trimList l ≠ []))) } := by
  obtain ⟨hS, hE, hT⟩ := wellformedCaption_parts c hc
  obtain ⟨-, -, -, -, ln, hln, hlnne⟩ := goodText_parts _ hT
  have hfne : ((splitChar '\n' c.text.data).filter
      (fun l => trimList l ≠ [])) ≠ [] := by
    intro h0
    rw [List.filter_eq_nil_iff] at h0
    exact h0 ln hln (by simpa using hlnne)
  have hlines := srt_lines i c hc suffix hsuf
  have hlen : ((splitChar '\n' (srtBlockChars i c ++ suffix)).filter
      (fun l => trimList l ≠ [])).length =
      ((splitChar '\n' c.text.data).filter (fun l => trimList l ≠ [])).length + 2 := by
    rw [hlines]
    simp
  simp only [parseSRTBlock]
  rw [if_neg (by
    rw [hlen]
    have := List.length_pos.mpr hfne
    omega)]
  rw [hlines]
  simp only [List.getD_cons_zero, List.getD_cons_succ]
  rw [jsParseInt_digits _ (natDigits_ne_nil (i + 1)) (natDigits_digits (i + 1))]
  rw [searchTimePair_serialized _ _ hS hE]
  simp only [List.drop_succ_cons, List.drop_zero]
  rw [replaceFirst_norm _ hS, replaceFirst_norm _ hE]

theorem srtBlock_trim (i : Nat) (c : Subtitle) (hc : wellformedCaption c = true)
    (suffix : List Char) :
    decide (trimList (srtBlockChars i c ++ suffix) ≠ []) = true := by
  simp only [decide_eq_true_eq]
  obtain ⟨a0, A', hA⟩ := List.exists_cons_of_ne_nil (natDigits_ne_nil (i + 1))
  have ha0 : a0.isDigit = true := by
    apply natDigits_digits (i + 1)
    rw [hA]
    simp
  refine trimList_ne_nil _ a0 ?_ (digit_not_ws a0 ha0)
  unfold srtBlockChars
  rw [hA]
  simp

theorem srtBlock_no_cr (i : Nat) (c : Subtitle) (hc : wellformedCaption c = true) :
    '\r' ∉ srtBlockChars i c := by
  obtain ⟨hS, hE, hT⟩ := wellformedCaption_parts c hc
  obtain ⟨-, -, -, hTcr, -⟩ := goodText_parts _ hT
  intro hm
  unfold srtBlockChars at hm
  simp only [List.mem_append, List.mem_cons] at hm
  rcases hm with (h | h | h) | h | h
  · exact (natDigits_no_nl (i + 1)).2 h
  · simp at h
  · exact (tl_no_nl _ _ hS hE).2 (by simp only [List.mem_append, List.mem_cons]; exact h)
  · simp at h
  · exact hTcr h

theorem srtBlocksFrom_good (subs : List Subtitle)
    (h : ∀ c ∈ subs, wellformedCaption c = true) :
    ∀ (i : Nat), ∀ b ∈ srtBlocksFrom i subs, b ≠ [] ∧ b.head? ≠ some '\n' ∧
      b.getLast? ≠ some '\n' ∧ hasNN b = false := by
  induction subs with
  | nil => intro i b hb; simp [srtBlocksFrom] at hb
  | cons c rest ih =>
    intro i b hb
    rw [show srtBlocksFrom i (c :: rest) =
        srtBlockChars i c :: srtBlocksFrom (i + 1) rest from rfl] at hb
    rcases List.mem_cons.mp hb with rfl | hb
    · exact srtBlock_good i c (h c (by simp))
    · exact ih (fun x hx => h x (by simp [hx])) (i + 1) b hb

theorem srtBlocksFrom_no_cr (subs : List Subtitle)
    (h : ∀ c ∈ subs, wellformedCaption c = true) :
    ∀ (i : Nat), ∀ b ∈ srtBlocksFrom i subs, '\r' ∉ b := by
  induction subs with
  | nil => intro i b hb; simp [srtBlocksFrom] at hb
  | cons c rest ih =>
    intro i b hb
    rw [show srtBlocksFrom i (c :: rest) =
        srtBlockChars i c :: srtBlocksFrom (i + 1) rest from rfl] at hb
    rcases List.mem_cons.mp hb with rfl | hb
    · exact srtBlock_no_cr i c (h c (by simp))
    · exact ih (fun x hx => h x (by simp [hx])) (i + 1) b hb

theorem joinSepL_no_cr (sep : List Char) (hsep : '\r' ∉ sep) :
    ∀ bs : List (List Char), (∀ b ∈ bs, '\r' ∉ b) → '\r' ∉ joinSepL sep bs
  | [], _ => by simp [joinSepL]
  | [b], h => by
    rw [show joinSepL sep [b] = b from rfl]
    exact h b (by simp)
  | b :: b' :: bs, h => by
    have hrec := joinSepL_no_cr sep hsep (b' :: bs)
      (fun x hx => h x (by simp only [List.mem_cons] at hx ⊢; tauto))
    rw [show joinSepL sep (b :: b' :: bs) =
        b ++ sep ++ joinSepL sep (b' :: bs) from rfl]
    intro hm
    rcases List.mem_append.mp hm with hm2 | hm2
    · rcases List.mem_append.mp hm2 with hm3 | hm3
      · exact h b (by simp) hm3
      · exact hsep hm3
    · exact hrec hm2

theorem srt_assemble :
    ∀ (i : Nat) (subs : List Subtitle), (∀ c ∈ subs, wellformedCaption c = true) →
    subs ≠ [] →
    ((lastPieces (srtBlocksFrom i subs)).filter
        (fun blk => trimList blk ≠ [])).filterMap parseSRTBlock = srtExpected i subs
  | _, [], _, hne => absurd rfl hne
  | i, [c], h, _ => by
    have hc := h c (by simp)
    rw [show srtBlocksFrom i [c] = [srtBlockChars i c] from rfl]
    rw [show lastPieces [srtBlockChars i c] = [srtBlockChars i c ++ ['\n']] from rfl]
    rw [List.filter_cons, if_pos (srtBlock_trim i c hc ['\n'])]
    rw [show (([] : List (List Char)).filter (fun blk => trimList blk ≠ [])) = []
      from rfl]
    rw [List.filterMap_cons, parseSRTBlock_good i c hc ['\n'] (Or.inr rfl)]
    rfl
  | i, c :: d :: rest, h, _ => by
    have hc := h c (by simp)
    have hrec := srt_assemble (i + 1) (d :: rest)
      (fun x hx => h x (by simp only [List.mem_cons] at hx ⊢; tauto)) (by simp)
    rw [show srtBlocksFrom i (c :: d :: rest) =
        srtBlockChars i c :: srtBlocksFrom (i + 1) (d :: rest) from rfl]
    rw [show srtBlocksFrom (i + 1) (d :: rest) =
        srtBlockChars (i + 1) d :: srtBlocksFrom (i + 2) rest from rfl]
    rw [show lastPieces (srtBlockChars i c :: srtBlockChars (i + 1) d ::
        srtBlocksFrom (i + 2) rest) =
      srtBlockChars i c :: lastPieces (srtBlockChars (i + 1) d ::
        srtBlocksFrom (i + 2) rest) from rfl]
    have htrim : decide (trimList (srtBlockChars i c) ≠ []) = true := by
      have := srtBlock_trim i c hc []
      rwa [List.append_nil] at this
    rw [List.filter_cons, if_pos htrim, List.filterMap_cons]
    have hp : parseSRTBlock (srtBlockChars i c) =
        some { index := (digitsVal (natDigits (i + 1)) : Int),
               startTime := c.startTime, endTime := c.endTime,
               text := .mk (joinSep '\n' ((splitChar '\n' c.text.data).filter
                 (fun l => trimList l ≠ []))) } := by
      have := parseSRTBlock_good i c hc [] (Or.inl rfl)
      rwa [List.append_nil] at this
    rw [hp]
    rw [show srtBlocksFrom (i + 1) (d :: rest) =
        srtBlockChars (i + 1) d :: srtBlocksFrom (i + 2) rest from rfl] at hrec
    rw [hrec]
    rfl

theorem parseSRT_toSRT (subs : List Subtitle)
    (h : ∀ c ∈ subs, wellformedCaption c = true) :
    parseSRT (toSRT subs) = srtExpected 0 subs := by
  cases subs with
  | nil => rfl
  | cons c rest =>
    have hnr : '\r' ∉ joinSepL "\n\n".data (srtBlocksFrom 0 (c :: rest)) ++ ['\n'] := by
      intro hm
      rcases List.mem_append.mp hm with hm | hm
      · exact joinSepL_no_cr _ (by decide) _ (srtBlocksFrom_no_cr _ h 0) hm
      · simp at hm
    unfold parseSRT toSRT
    rw [show (String.mk (joinSepL "\n\n".data (srtBlocksFrom 0 (c :: rest)) ++
        ['\n'])).data = joinSepL "\n\n".data (srtBlocksFrom 0 (c :: rest)) ++ ['\n']
      from rfl]
    rw [normalizeLineEndings_eq_self _ hnr]
    rw [splitBlocks_join _ (srtBlocksFrom_good _ h 0)
      (by
        rw [show srtBlocksFrom 0 (c :: rest) =
          srtBlockChars 0 c :: srtBlocksFrom 1 rest from rfl]
        simp)]
    exact srt_assemble 0 (c :: rest) h (by simp)

theorem frame_good (A TL T : List Char)
    (a0 : Char) (A' : List Char) (hA : A = a0 :: A') (ha0 : a0.isDigit = true)
    (s0 : Char) (S' : List Char) (hTL : TL = s0 :: S') (hs0 : s0.isDigit = true)
    (hAnl : '\n' ∉ A) (hTLnl : '\n' ∉ TL)
    (hTnn : hasNN T = false) (hThead : T.head? ≠ some '\n')
    (hTlast : T.getLast? ≠ some '\n') (hTne : T ≠ []) :
    A ++ '\n' :: TL ++ '\n' :: T ≠ [] ∧
    (A ++ '\n' :: TL ++ '\n' :: T).head? ≠ some '\n' ∧
    (A ++ '\n' :: TL ++ '\n' :: T).getLast? ≠ some '\n' ∧
    hasNN (A ++ '\n' :: TL ++ '\n' :: T) = false := by
  subst hA hTL
  refine ⟨by simp, ?_, ?_, ?_⟩
  · simp only [List.cons_append, List.head?_cons]
    simp [digit_ne a0 '\n' ha0 (by decide)]
  · rw [List.getLast?_append_of_ne_nil _ (by simp)]
    rw [show ('\n' :: T : List Char) = ['\n'] ++ T from rfl]
    rw [List.getLast?_append_of_ne_nil _ hTne]
    exact hTlast
  · rw [List.append_assoc]
    have htail : hasNN (('\n' :: (s0 :: S')) ++ '\n' :: T) = false := by
      rw [List.cons_append, hasNN_cons]
      have hinner : hasNN ((s0 :: S') ++ '\n' :: T) = false := by
        have hnl : hasNN ('\n' :: T) = false := by
          rw [hasNN_cons, hTnn]
          cases hh : T.head? with
          | none => simp [hh]
          | some x =>
            have hx : x ≠ '\n' := fun he => hThead (he ▸ hh)
            simp [hh, hx]
        exact hasNN_append_no_nl _ _ hTLnl hnl (fun _ => hnl)
      rw [hinner]
      have hhead : ((s0 :: S') ++ '\n' :: T).head? = some s0 := by simp
      rw [hhead]
      simp [digit_ne s0 '\n' hs0 (by decide)]
    exact hasNN_append_no_nl _ _ hAnl htail (fun _ => htail)

theorem frame_lines (A TL T suffix : List Char)
    (hAnl : '\n' ∉ A) (hTLnl : '\n' ∉ TL)
    (hpA : decide (trimList A ≠ []) = true)
    (hpTL : decide (trimList TL ≠ []) = true)
    (hsuf : suffix = [] ∨ suffix = ['\n']) :
    (splitChar '\n' ((A ++ '\n' :: TL ++ '\n' :: T) ++ suffix)).filter
        (fun l => trimList l ≠ []) =
      A :: TL :: (splitChar '\n' T).filter (fun l => trimList l ≠ []) := by
  have hblock : (A ++ '\n' :: TL ++ '\n' :: T) ++ suffix =
      A ++ '\n' :: (TL ++ '\n' :: (T ++ suffix)) := by simp
  rw [hblock, splitChar_append_sep _ _ _ hAnl, splitChar_append_sep _ _ _ hTLnl]
  rcases hsuf with rfl | rfl
  · rw [List.append_nil]
    simp only [List.filter_cons, hpA, hpTL, if_true]
  · rw [splitChar_append_last]
    simp only [List.filter_cons, hpA, hpTL, if_true, List.filter_append]
    simp [trimList]

theorem dotTime_shape (S : List Char) (hS : isNormTime S = true) :
    ∃ a b d e g h2 j k l,
      S = [a, b, ':', d, e, ':', g, h2, ',', j, k, l] ∧
      replaceFirst ',' '.' S = [a, b, ':', d, e, ':', g, h2, '.', j, k, l] ∧
      a.isDigit = true ∧ b.isDigit = true ∧ d.isDigit = true ∧ e.isDigit = true ∧
      g.isDigit = true ∧ h2.isDigit = true ∧ j.isDigit = true ∧ k.isDigit = true ∧
      l.isDigit = true := by
  obtain ⟨a, b, d, e, g, h2, j, k, l, rfl, ha, hb, hd, he, hg, hh, hj, hk, hl⟩ :=
    isNormTime_shape S hS
  have f : ∀ c : Char, c.isDigit = true → ¬(c = ',') := fun c hc =>
    digit_ne c ',' hc (by decide)
  exact ⟨a, b, d, e, g, h2, j, k, l, rfl,
    by simp [replaceFirst, f a ha, f b hb, f d hd, f e he, f g hg, f h2 hh],
    ha, hb, hd, he, hg, hh, hj, hk, hl⟩

theorem dot_comma_dot (S : List Char) (hS : isNormTime S = true) :
    replaceFirst '.' ',' (replaceFirst ',' '.' S) = S := by
  obtain ⟨a, b, d, e, g, h2, j, k, l, hSeq, hdot, ha, hb, hd, he, hg, hh, hj, hk, hl⟩ :=
    dotTime_shape S hS
  have f : ∀ c : Char, c.isDigit = true → ¬(c = '.') := fun c hc =>
    digit_ne c '.' hc (by decide)
  rw [hdot, hSeq]
  simp [replaceFirst, f a ha, f b hb, f d hd, f e he, f g hg, f h2 hh]

theorem dotTime_chars (S : List Char) (hS : isNormTime S = true) :
    ∀ x ∈ replaceFirst ',' '.' S, x.isDigit = true ∨ x = ':' ∨ x = '.' := by
  obtain ⟨a, b, d, e, g, h2, j, k, l, hSeq, hdot, ha, hb, hd, he, hg, hh, hj, hk, hl⟩ :=
    dotTime_shape S hS
  rw [hdot]
  intro x hx
  simp at hx
  rcases hx with rfl | rfl | rfl | rfl | rfl | rfl | rfl | rfl | rfl | rfl | rfl | rfl <;>
    simp [ha, hb, hd, he, hg, hh, hj, hk, hl]

theorem dotTime_no_nl (S : List Char) (hS : isNormTime S = true) :
    '\n' ∉ replaceFirst ',' '.' S ∧ '\r' ∉ replaceFirst ',' '.' S := by
  constructor <;> intro hm <;> rcases dotTime_chars S hS _ hm with h | h | h <;>
    simp at h

theorem dotTime_head (S : List Char) (hS : isNormTime S = true) :
    ∃ s0 r, replaceFirst ',' '.' S = s0 :: r ∧ s0.isDigit = true := by
  obtain ⟨a, b, d, e, g, h2, j, k, l, hSeq, hdot, ha, -⟩ := dotTime_shape S hS
  exact ⟨a, _, hdot, ha⟩

theorem vtt_tl_no_nl (S E : List Char) (hS : isNormTime S = true)
    (hE : isNormTime E = true) :
    '\n' ∉ (replaceFirst ',' '.' S ++ ' ' :: '-' :: '-' :: '>' :: ' ' ::
      replaceFirst ',' '.' E) ∧
    '\r' ∉ (replaceFirst ',' '.' S ++ ' ' :: '-' :: '-' :: '>' :: ' ' ::
      replaceFirst ',' '.' E) := by
  constructor
  · intro hm
    rcases List.mem_append.mp hm with h | h
    · exact absurd h (fun h => by
        rcases dotTime_chars S hS _ h with h' | h' | h' <;> simp at h')
    · simp only [List.mem_cons] at h
      rcases h with h | h | h | h | h | h
      all_goals first
        | simp at h
        | exact absurd h (fun h => by
            rcases dotTime_chars E hE _ h with h' | h' | h' <;> simp at h')
  · intro hm
    rcases List.mem_append.mp hm with h | h
    · exact absurd h (fun h => by
        rcases dotTime_chars S hS _ h with h' | h' | h' <;> simp at h')
    · simp only [List.mem_cons] at h
      rcases h with h | h | h | h | h | h
      all_goals first
        | simp at h
        | exact absurd h (fun h => by
            rcases dotTime_chars E hE _ h with h' | h' | h' <;> simp at h')

theorem vttPairAt_serialized (S E : List Char) (hS : isNormTime S = true)
    (hE : isNormTime E = true) :
    vttPairAt (replaceFirst ',' '.' S ++ ' ' :: '-' :: '-' :: '>' :: ' ' ::
        replaceFirst ',' '.' E) =
      some (replaceFirst ',' '.' S, replaceFirst ',' '.' E) := by
  obtain ⟨a, b, d, e, g, h2, j, k, l, hSeq, hdot, ha, hb, hd, he, hg, hh, hj, hk, hl⟩ :=
    dotTime_shape S hS
  obtain ⟨a', b', d', e', g', h2', j', k', l', hSeq', hdot', ha', hb', hd', he', hg',
    hh', hj', hk', hl'⟩ := dotTime_shape E hE
  have hwa' : a'.isWhitespace = false := digit_not_ws a' ha'
  rw [hdot, hdot']
  simp [vttPairAt, matchVttTime, matchVttFull, skipWs, matchArrow, List.dropWhile,
    ha, hb, hd, he, hg, hh, hj, hk, hl, ha', hb', hd', he', hg', hh', hj', hk', hl',
    hwa']

theorem searchVttTimePair_serialized (S E : List Char) (hS : isNormTime S = true)
    (hE : isNormTime E = true) :
    searchVttTimePair (replaceFirst ',' '.' S ++ ' ' :: '-' :: '-' :: '>' :: ' ' ::
        replaceFirst ',' '.' E) =
      some (replaceFirst ',' '.' S, replaceFirst ',' '.' E) := by
  refine searchVttTimePair_head _ _ (vttPairAt_serialized S E hS hE) ?_
  obtain ⟨s0, r, hdot, -⟩ := dotTime_head S hS
  rw [hdot]
  simp

theorem splitColon_dotTime (S : List Char) (hS : isNormTime S = true) :
    (splitChar ':' (replaceFirst ',' '.' S)).length = 3 := by
  obtain ⟨a, b, d, e, g, h2, j, k, l, hSeq, hdot, ha, hb, hd, he, hg, hh, hj, hk, hl⟩ :=
    dotTime_shape S hS
  have f : ∀ c : Char, c.isDigit = true → ¬(c = ':') := fun c hc =>
    digit_ne c ':' hc (by decide)
  rw [hdot]
  simp [splitChar, splitCharAux, f a ha, f b hb, f d hd, f e he, f g hg, f h2 hh,
    f j hj, f k hk, f l hl]

theorem no_arrow_digits :
    ∀ l : List Char, (∀ x ∈ l, x.isDigit = true) →
      listContainsSeq "-->".data l = false
  | [], _ => rfl
  | c :: cs, h => by
    have hrec := no_arrow_digits cs (fun x hx => h x (by simp [hx]))
    have hne : ¬('-' = c) := fun he =>
      digit_ne c '-' (h c (by simp)) (by decide) he.symm
    rw [show listContainsSeq "-->".data (c :: cs) =
        (listStartsWith "-->".data (c :: cs) || listContainsSeq "-->".data cs)
      from rfl]
    rw [hrec]
    rw [show listStartsWith "-->".data (c :: cs) =
        (('-' == c) && listStartsWith "->".data cs) from rfl]
    simp [hne]

theorem vttBlock_good (i : Nat) (c : Subtitle) (hc : wellformedCaption c = true) :
    vttBlockChars i c ≠ [] ∧ (vttBlockChars i c).head? ≠ some '\n' ∧
    (vttBlockChars i c).getLast? ≠ some '\n' ∧ hasNN (vttBlockChars i c) = false := by
  obtain ⟨hS, hE, hT⟩ := wellformedCaption_parts c hc
  obtain ⟨hTnn, hThead, hTlast, hTcr, -⟩ := goodText_parts _ hT
  have hTne := goodText_ne_nil _ hT
  obtain ⟨a0, A', hA⟩ := List.exists_cons_of_ne_nil (natDigits_ne_nil (i + 1))
  have ha0 : a0.isDigit = true := by
    apply natDigits_digits (i + 1)
    rw [hA]
    simp
  obtain ⟨s0, r, hdot, hs0⟩ := dotTime_head c.startTime.data hS
  unfold vttBlockChars
  exact frame_good _ _ _ a0 A' hA ha0 s0
    (r ++ ' ' :: '-' :: '-' :: '>' :: ' ' :: replaceFirst ',' '.' c.endTime.data)
    (by rw [hdot]; rfl) hs0 (natDigits_no_nl (i + 1)).1 (vtt_tl_no_nl _ _ hS hE).1
    hTnn hThead hTlast hTne

theorem vttBlock_trim (i : Nat) (c : Subtitle) (hc : wellformedCaption c = true)
    (suffix : List Char) :
    decide (trimList (vttBlockChars i c ++ suffix) ≠ []) = true := by
  simp only [decide_eq_true_eq]
  obtain ⟨a0, A', hA⟩ := List.exists_cons_of_ne_nil (natDigits_ne_nil (i + 1))
  have ha0 : a0.isDigit = true := by
    apply natDigits_digits (i + 1)
    rw [hA]
    simp
  refine trimList_ne_nil _ a0 ?_ (digit_not_ws a0 ha0)
  unfold vttBlockChars
  rw [hA]
  simp

theorem vttBlock_no_cr (i : Nat) (c : Subtitle) (hc : wellformedCaption c = true) :
    '\r' ∉ vttBlockChars i c := by
  obtain ⟨hS, hE, hT⟩ := wellformedCaption_parts c hc
  obtain ⟨-, -, -, hTcr, -⟩ := goodText_parts _ hT
  intro hm
  unfold vttBlockChars at hm
  rcases List.mem_append.mp hm with hm | hm
  · rcases List.mem_append.mp hm with hm | hm
    · exact (natDigits_no_nl (i + 1)).2 hm
    · rcases List.mem_cons.mp hm with hm | hm
      · simp at hm
      · exact (vtt_tl_no_nl _ _ hS hE).2 hm
  · rcases List.mem_cons.mp hm with hm | hm
    · simp at hm
    · exact hTcr hm

theorem vttBlocksFrom_good (subs : List Subtitle)
    (h : ∀ c ∈ subs, wellformedCaption c = true) :
    ∀ (i : Nat), ∀ b ∈ vttBlocksFrom i subs, b ≠ [] ∧ b.head? ≠ some '\n' ∧
      b.getLast? ≠ some '\n' ∧ hasNN b = false := by
  induction subs with
  | nil => intro i b hb; simp [vttBlocksFrom] at hb
  | cons c rest ih =>
    intro i b hb
    rw [show vttBlocksFrom i (c :: rest) =
        vttBlockChars i c :: vttBlocksFrom (i + 1) rest from rfl] at hb
    rcases List.mem_cons.mp hb with rfl | hb
    · exact vttBlock_good i c (h c (by simp))
    · exact ih (fun x hx => h x (by simp [hx])) (i + 1) b hb

theorem vttBlocksFrom_no_cr (subs : List Subtitle)
    (h : ∀ c ∈ subs, wellformedCaption c = true) :
    ∀ (i : Nat), ∀ b ∈ vttBlocksFrom i subs, '\r' ∉ b := by
  induction subs with
  | nil => intro i b hb; simp [vttBlocksFrom] at hb
  | cons c rest ih =>
    intro i b hb
    rw [show vttBlocksFrom i (c :: rest) =
        vttBlockChars i c :: vttBlocksFrom (i + 1) rest from rfl] at hb
    rcases List.mem_cons.mp hb with rfl | hb
    · exact vttBlock_no_cr i c (h c (by simp))
    · exact ih (fun x hx => h x (by simp [hx])) (i + 1) b hb

theorem parseVTTStep_good (i n : Nat) (acc : List Subtitle) (c : Subtitle)
    (hc : wellformedCaption c = true) (suffix : List Char)
    (hsuf : suffix = [] ∨ suffix = ['\n']) :
    parseVTTStep (n, acc) (vttBlockChars i c ++ suffix) =
      (n + 1, acc ++ [{ index := ((n + 1 : Nat) : Int),
                        startTime := c.startTime, endTime := c.endTime,
                        text := .mk (stripTags (joinSep '\n'
                          ((splitChar '\n' c.text.data).filter
                            (fun l => trimList l ≠ [])))) }]) := by
  obtain ⟨hS, hE, hT⟩ := wellformedCaption_parts c hc
  obtain ⟨a0, A', hA⟩ := List.exists_cons_of_ne_nil (natDigits_ne_nil (i + 1))
  have ha0 : a0.isDigit = true := by
    apply natDigits_digits (i + 1)
    rw [hA]
    simp
  obtain ⟨s0, r, hdot, hs0⟩ := dotTime_head c.startTime.data hS
  have hb : vttBlockChars i c ++ suffix = a0 :: (A' ++ '\n' ::
      ((replaceFirst ',' '.' c.startTime.data ++ ' ' :: '-' :: '-' :: '>' :: ' ' ::
        replaceFirst ',' '.' c.endTime.data) ++ '\n' :: (c.text.data ++ suffix))) := by
    unfold vttBlockChars
    rw [hA]
    simp
  have hcond : ¬(trimList (vttBlockChars i c ++ suffix) = "WEBVTT".data ∨
      listStartsWith "NOTE".data (vttBlockChars i c ++ suffix) = true) := by
    obtain ⟨rest, hb2⟩ : ∃ rest, vttBlockChars i c ++ suffix = a0 :: rest := ⟨_, hb⟩
    rw [hb2]
    rintro (h1 | h2)
    · obtain ⟨r', hr'⟩ := trimList_head a0 rest (digit_not_ws a0 ha0)
      rw [hr'] at h1
      rw [show ("WEBVTT".data : List Char) = 'W' :: "EBVTT".data from rfl] at h1
      rw [List.cons.injEq] at h1
      exact digit_ne a0 'W' ha0 (by decide) h1.1
    · rw [show listStartsWith "NOTE".data (a0 :: rest) =
          (('N' == a0) && listStartsWith "OTE".data rest) from rfl] at h2
      have hne : ¬('N' = a0) := fun he => digit_ne a0 'N' ha0 (by decide) he.symm
      simp [hne] at h2
  have hpA : decide (trimList (natDigits (i + 1)) ≠ []) = true := by
    simp only [decide_eq_true_eq]
    refine trimList_ne_nil _ a0 ?_ (digit_not_ws a0 ha0)
    rw [hA]
    simp
  have hpTL : decide (trimList (replaceFirst ',' '.' c.startTime.data ++
      ' ' :: '-' :: '-' :: '>' :: ' ' :: replaceFirst ',' '.' c.endTime.data) ≠ []) =
      true := by
    simp only [decide_eq_true_eq]
    refine trimList_ne_nil _ s0 ?_ (digit_not_ws s0 hs0)
    rw [hdot]
    simp
  have hlines : (splitChar '\n' (vttBlockChars i c ++ suffix)).filter
      (fun l => trimList l ≠ []) =
      natDigits (i + 1) ::
      (replaceFirst ',' '.' c.startTime.data ++ ' ' :: '-' :: '-' :: '>' :: ' ' ::
        replaceFirst ',' '.' c.endTime.data) ::
      (splitChar '\n' c.text.data).filter (fun l => trimList l ≠ []) := by
    unfold vttBlockChars
    exact frame_lines _ _ _ _ (natDigits_no_nl (i + 1)).1
      (vtt_tl_no_nl _ _ hS hE).1 hpA hpTL hsuf
  simp only [parseVTTStep]
  rw [if_neg hcond, hlines]
  have hlt : ((natDigits (i + 1) ::
      (replaceFirst ',' '.' c.startTime.data ++ ' ' :: '-' :: '-' :: '>' :: ' ' ::
        replaceFirst ',' '.' c.endTime.data) ::
      (splitChar '\n' c.text.data).filter (fun l => trimList l ≠ [])).length < 2) =
      False := by
    simp only [List.length_cons, eq_iff_iff, iff_false]
    omega
  simp only [hlt, if_false]
  simp only [List.getD_cons_zero, List.getD_cons_succ,
    no_arrow_digits _ (natDigits_digits (i + 1)), Bool.false_eq_true, if_false]
  rw [searchVttTimePair_serialized _ _ hS hE]
  simp [splitColon_dotTime _ hS, splitColon_dotTime _ hE,
    dot_comma_dot _ hS, dot_comma_dot _ hE]

theorem vtt_assemble :
    ∀ (i : Nat) (subs : List Subtitle), (∀ c ∈ subs, wellformedCaption c = true) →
    subs ≠ [] → ∀ (n : Nat) (acc : List Subtitle),
    ((lastPieces (vttBlocksFrom i subs)).filter
        (fun blk => trimList blk ≠ [])).foldl parseVTTStep (n, acc) =
      (n + subs.length, acc ++ vttExpected n subs)
  | _, [], _, hne => absurd rfl hne
  | i, [c], h, _ => by
    intro n acc
    have hc := h c (by simp)
    rw [show vttBlocksFrom i [c] = [vttBlockChars i c] from rfl]
    rw [show lastPieces [vttBlockChars i c] = [vttBlockChars i c ++ ['\n']] from rfl]
    rw [List.filter_cons, if_pos (vttBlock_trim i c hc ['\n'])]
    rw [show (([] : List (List Char)).filter (fun blk => trimList blk ≠ [])) = []
      from rfl]
    rw [List.foldl_cons, List.foldl_nil]
    rw [parseVTTStep_good i n acc c hc ['\n'] (Or.inr rfl)]
    simp [vttExpected]
  | i, c :: d :: rest, h, _ => by
    intro n acc
    have hc := h c (by simp)
    have hrec := vtt_assemble (i + 1) (d :: rest)
      (fun x hx => h x (by simp only [List.mem_cons] at hx ⊢; tauto)) (by simp)
    rw [show vttBlocksFrom i (c :: d :: rest) =
        vttBlockChars i c :: vttBlocksFrom (i + 1) (d :: rest) from rfl]
    rw [show vttBlocksFrom (i + 1) (d :: rest) =
        vttBlockChars (i + 1) d :: vttBlocksFrom (i + 2) rest from rfl]
    rw [show lastPieces (vttBlockChars i c :: vttBlockChars (i + 1) d ::
        vttBlocksFrom (i + 2) rest) =
      vttBlockChars i c :: lastPieces (vttBlockChars (i + 1) d ::
        vttBlocksFrom (i + 2) rest) from rfl]
    have htrim : decide (trimList (vttBlockChars i c) ≠ []) = true := by
      have := vttBlock_trim i c hc []
      rwa [List.append_nil] at this
    rw [List.filter_cons, if_pos htrim, List.foldl_cons]
    have hstep := parseVTTStep_good i n acc c hc [] (Or.inl rfl)
    rw [List.append_nil] at hstep
    rw [hstep]
    rw [show vttBlocksFrom (i + 1) (d :: rest) =
        vttBlockChars (i + 1) d :: vttBlocksFrom (i + 2) rest from rfl] at hrec
    rw [hrec]
    simp only [vttExpected, List.length_cons, Prod.mk.injEq]
    constructor
    · omega
    · simp

theorem parseVTT_toVTT (subs : List Subtitle)
    (h : ∀ c ∈ subs, wellformedCaption c = true) :
    parseVTT (toVTT subs) = vttExpected 0 subs := by
  cases subs with
  | nil => rfl
  | cons c rest =>
    have hnr : '\r' ∉ "WEBVTT\n\n".data ++
        joinSepL "\n\n".data (vttBlocksFrom 0 (c :: rest)) ++ ['\n'] := by
      intro hm
      rcases List.mem_append.mp hm with hm | hm
      · rcases List.mem_append.mp hm with hm | hm
        · simp at hm
        · exact joinSepL_no_cr _ (by decide) _ (vttBlocksFrom_no_cr _ h 0) hm
      · simp at hm
    unfold parseVTT toVTT
    rw [show (String.mk ("WEBVTT\n\n".data ++
        joinSepL "\n\n".data (vttBlocksFrom 0 (c :: rest)) ++ ['\n'])).data =
      "WEBVTT\n\n".data ++ joinSepL "\n\n".data (vttBlocksFrom 0 (c :: rest)) ++ ['\n']
      from rfl]
    rw [normalizeLineEndings_eq_self _ hnr]
    rw [show vttBlocksFrom 0 (c :: rest) =
        vttBlockChars 0 c :: vttBlocksFrom 1 rest from rfl]
    rw [show "WEBVTT\n\n".data ++
        joinSepL "\n\n".data (vttBlockChars 0 c :: vttBlocksFrom 1 rest) ++ ['\n'] =
      joinSepL "\n\n".data ("WEBVTT".data :: vttBlockChars 0 c ::
        vttBlocksFrom 1 rest) ++ ['\n'] from by
      rw [show joinSepL "\n\n".data ("WEBVTT".data :: vttBlockChars 0 c ::
          vttBlocksFrom 1 rest) =
        "WEBVTT".data ++ "\n\n".data ++
          joinSepL "\n\n".data (vttBlockChars 0 c :: vttBlocksFrom 1 rest) from rfl]
      simp]
    have hgood : ∀ b ∈ ("WEBVTT".data :: vttBlockChars 0 c :: vttBlocksFrom 1 rest),
        b ≠ [] ∧ b.head? ≠ some '\n' ∧ b.getLast? ≠ some '\n' ∧ hasNN b = false := by
      intro b hb
      rcases List.mem_cons.mp hb with rfl | hb
      · exact ⟨by decide, by decide, by decide, by decide⟩
      · refine vttBlocksFrom_good _ h 0 b ?_
        rw [show vttBlocksFrom 0 (c :: rest) =
            vttBlockChars 0 c :: vttBlocksFrom 1 rest from rfl]
        exact hb
    rw [splitBlocks_join _ hgood (by simp)]
    rw [show lastPieces ("WEBVTT".data :: vttBlockChars 0 c :: vttBlocksFrom 1 rest) =
        "WEBVTT".data :: lastPieces (vttBlockChars 0 c :: vttBlocksFrom 1 rest)
      from rfl]
    rw [List.filter_cons, if_pos (by decide), List.foldl_cons]
    rw [show parseVTTStep ((0 : Nat), ([] : List Subtitle)) "WEBVTT".data = (0, [])
      from rfl]
    have hasm := vtt_assemble 0 (c :: rest) h (by simp) 0 []
    rw [show vttBlocksFrom 0 (c :: rest) =
        vttBlockChars 0 c :: vttBlocksFrom 1 rest from rfl] at hasm
    rw [hasm]
    simp

theorem escNL_no_nl : ∀ t : List Char, '\n' ∉ escNL t
  | [] => by simp [escNL]
  | c :: rest => by
    by_cases hc : c = '\n'
    · subst hc
      rw [show escNL ('\n' :: rest) = '\\' :: 'N' :: escNL rest from rfl]
      intro hm
      rcases List.mem_cons.mp hm with h | h
      · exact absurd h (by decide)
      · rcases List.mem_cons.mp h with h | h
        · exact absurd h (by decide)
        · exact escNL_no_nl rest h
    · have hstep : escNL (c :: rest) = c :: escNL rest := by
        rw [escNL.eq_def]
        split
        · rename_i heq
          simp at heq
        · rename_i heq
          rw [List.cons.injEq] at heq
          exact absurd heq.1 hc
        · rename_i heq
          rw [List.cons.injEq] at heq
          rw [heq.1, heq.2]
      rw [hstep]
      intro hm
      rcases List.mem_cons.mp hm with h | h
      · exact hc h.symm
      · exact escNL_no_nl rest h

theorem escNL_no_cr : ∀ t : List Char, '\r' ∉ t → '\r' ∉ escNL t
  | [], _ => by simp [escNL]
  | c :: rest, h => by
    have hrest : '\r' ∉ rest := fun hm => h (by simp [hm])
    by_cases hc : c = '\n'
    · subst hc
      rw [show escNL ('\n' :: rest) = '\\' :: 'N' :: escNL rest from rfl]
      intro hm
      rcases List.mem_cons.mp hm with h2 | h2
      · exact absurd h2 (by decide)
      · rcases List.mem_cons.mp h2 with h2 | h2
        · exact absurd h2 (by decide)
        · exact escNL_no_cr rest hrest h2
    · have hstep : escNL (c :: rest) = c :: escNL rest := by
        rw [escNL.eq_def]
        split
        · rename_i heq
          simp at heq
        · rename_i heq
          rw [List.cons.injEq] at heq
          exact absurd heq.1 hc
        · rename_i heq
          rw [List.cons.injEq] at heq
          rw [heq.1, heq.2]
      rw [hstep]
      intro hm
      rcases List.mem_cons.mp hm with h2 | h2
      · exact h (by simp [h2.symm])
      · exact escNL_no_cr rest hrest h2

theorem assOutTime_norm (S : List Char) (hS : isNormTime S = true) :
    ∃ a b d e g h2 j k l,
      S = [a, b, ':', d, e, ':', g, h2, ',', j, k, l] ∧
      a.isDigit = true ∧ b.isDigit = true ∧ d.isDigit = true ∧ e.isDigit = true ∧
      g.isDigit = true ∧ h2.isDigit = true ∧ j.isDigit = true ∧ k.isDigit = true ∧
      assOutTime S = natDigits (digitsVal [a, b]) ++
        ':' :: d :: e :: ':' :: g :: h2 :: '.' :: j :: k :: [] := by
  obtain ⟨a, b, d, e, g, h2, j, k, l, rfl, ha, hb, hd, he, hg, hh, hj, hk, hl⟩ :=
    isNormTime_shape S hS
  refine ⟨a, b, d, e, g, h2, j, k, l, rfl, ha, hb, hd, he, hg, hh, hj, hk, ?_⟩
  unfold assOutTime
  have hm : matchSrtParts [a, b, ':', d, e, ':', g, h2, ',', j, k, l] =
      some ([a, b], [d, e], [g, h2], [j, k, l]) := by
    simp [matchSrtParts, ha, hb, hd, he, hg, hh, hj, hk, hl]
  rw [searchSrtParts_head _ _ hm (by simp)]
  simp

theorem assOutTime_chars (S : List Char) (hS : isNormTime S = true) :
    ∀ x ∈ assOutTime S, x.isDigit = true ∨ x = ':' ∨ x = '.' := by
  obtain ⟨a, b, d, e, g, h2, j, k, l, hSeq, ha, hb, hd, he, hg, hh, hj, hk, hout⟩ :=
    assOutTime_norm S hS
  rw [hout]
  intro x hx
  rcases List.mem_append.mp hx with hx | hx
  · exact Or.inl (natDigits_digits _ _ hx)
  · simp at hx
    rcases hx with rfl | rfl | rfl | rfl | rfl | rfl | rfl | rfl | rfl <;>
      simp [hd, he, hg, hh, hj, hk]

theorem assOutTime_no_ws (S : List Char) (hS : isNormTime S = true) :
    ∀ x ∈ assOutTime S, x.isWhitespace = false := by
  intro x hx
  rcases assOutTime_chars S hS x hx with h | rfl | rfl
  · exact digit_not_ws x h
  · decide
  · decide

theorem assOutTime_ne_nil (S : List Char) (hS : isNormTime S = true) :
    assOutTime S ≠ [] := by
  obtain ⟨a, b, d, e, g, h2, j, k, l, hSeq, ha, hb, hd, he, hg, hh, hj, hk, hout⟩ :=
    assOutTime_norm S hS
  rw [hout]
  simp

theorem assOutTime_no_comma (S : List Char) (hS : isNormTime S = true) :
    ',' ∉ assOutTime S := by
  intro hm
  rcases assOutTime_chars S hS _ hm with h | h | h
  · exact absurd h (by decide)
  · simp at h
  · simp at h

theorem assOutTime_no_nl (S : List Char) (hS : isNormTime S = true) :
    '\n' ∉ assOutTime S ∧ '\r' ∉ assOutTime S := by
  constructor <;> intro hm <;> rcases assOutTime_chars S hS _ hm with h | h | h <;>
    first
      | exact absurd h (by decide)
      | simp at h

theorem assParseTime_roundtrip (S : List Char) (hS : isNormTime S = true) :
    assParseTime (assOutTime S) = S.take 11 ++ ['0'] := by
  obtain ⟨a, b, d, e, g, h2, j, k, l, hSeq, ha, hb, hd, he, hg, hh, hj, hk, hout⟩ :=
    assOutTime_norm S hS
  rw [hout]
  unfold assParseTime
  have hb2 := takeWhile_digit_boundary ':'
    (d :: e :: ':' :: g :: h2 :: '.' :: j :: k :: []) (by decide)
    (natDigits (digitsVal [a, b])) (natDigits_digits _)
  obtain ⟨a0, A', hA⟩ := List.exists_cons_of_ne_nil
    (natDigits_ne_nil (digitsVal [a, b]))
  have hmm : matchAssTimeAt (natDigits (digitsVal [a, b]) ++
      ':' :: d :: e :: ':' :: g :: h2 :: '.' :: j :: k :: []) =
      some (natDigits (digitsVal [a, b]), [d, e], [g, h2], [j, k]) := by
    unfold matchAssTimeAt
    rw [hb2.1, hb2.2]
    rw [hA]
    simp [hd, he, hg, hh, hj, hk]
  rw [searchAssTime_head _ _ hmm (by simp)]
  rw [hSeq]
  simp [padStart2_natDigits a b ha hb]

theorem assDialogue_no_nl (c : Subtitle) (hS : isNormTime c.startTime.data = true)
    (hE : isNormTime c.endTime.data = true) : '\n' ∉ assDialogue c := by
  intro hm
  unfold assDialogue at hm
  rcases List.mem_append.mp hm with hm | hm
  · rcases List.mem_append.mp hm with hm | hm
    · rcases List.mem_append.mp hm with hm | hm
      · rcases List.mem_append.mp hm with hm | hm
        · exact absurd hm (by decide)
        · exact (assOutTime_no_nl _ hS).1 hm
      · rcases List.mem_cons.mp hm with hm | hm
        · simp at hm
        · exact (assOutTime_no_nl _ hE).1 hm
    · exact absurd hm (by decide)
  · exact escNL_no_nl _ hm

theorem assDialogue_no_cr (c : Subtitle) (hS : isNormTime c.startTime.data = true)
    (hE : isNormTime c.endTime.data = true) (hT : '\r' ∉ c.text.data) :
    '\r' ∉ assDialogue c := by
  intro hm
  unfold assDialogue at hm
  rcases List.mem_append.mp hm with hm | hm
  · rcases List.mem_append.mp hm with hm | hm
    · rcases List.mem_append.mp hm with hm | hm
      · rcases List.mem_append.mp hm with hm | hm
        · exact absurd hm (by decide)
        · exact (assOutTime_no_nl _ hS).2 hm
      · rcases List.mem_cons.mp hm with hm | hm
        · simp at hm
        · exact (assOutTime_no_nl _ hE).2 hm
    · exact absurd hm (by decide)
  · exact escNL_no_cr _ hT hm

theorem assStep_dialogue (c : Subtitle) (hc : wellformedCaption c = true)
    (n : Nat) (acc : List Subtitle) :
    assStep ⟨true, assStdFields, n, acc⟩ (assDialogue c) =
      ⟨true, assStdFields, n + 1, acc ++
        [{ index := ((n + 1 : Nat) : Int),
           startTime := .mk (c.startTime.data.take 11 ++ ['0']),
           endTime := .mk (c.endTime.data.take 11 ++ ['0']),
           text := .mk (stripBraces (replaceNsl (trimList (escNL c.text.data)))) }]⟩ := by
  obtain ⟨hS, hE, hT⟩ := wellformedCaption_parts c hc
  have hT1c : ',' ∉ assOutTime c.startTime.data := assOutTime_no_comma _ hS
  have hT2c : ',' ∉ assOutTime c.endTime.data := assOutTime_no_comma _ hE
  have hline : assDialogue c =
      'D' :: 'i' :: 'a' :: 'l' :: 'o' :: 'g' :: 'u' :: 'e' :: ':' :: ' ' :: '0' ::
      ',' :: (assOutTime c.startTime.data ++ ',' :: (assOutTime c.endTime.data ++
        ',' :: 'D' :: 'e' :: 'f' :: 'a' :: 'u' :: 'l' :: 't' :: ',' :: ',' :: '0' ::
        ',' :: '0' :: ',' :: '0' :: ',' :: ',' :: escNL c.text.data)) := by
    unfold assDialogue
    simp
  obtain ⟨rest0, hD⟩ : ∃ rest, assDialogue c = 'D' :: rest := ⟨_, hline⟩
  have hdrop : (assDialogue c).drop 9 =
      ([' ', '0'] : List Char) ++ ',' :: (assOutTime c.startTime.data ++
        ',' :: (assOutTime c.endTime.data ++
        ',' :: ("Default".data ++ ',' :: (([] : List Char) ++
        ',' :: ("0".data ++ ',' :: ("0".data ++ ',' :: ("0".data ++
        ',' :: (([] : List Char) ++ ',' :: escNL c.text.data)))))))) := by
    rw [hline]
    rfl
  have hvals : splitChar ',' ((assDialogue c).drop 9) =
      ([' ', '0'] : List Char) :: assOutTime c.startTime.data ::
      assOutTime c.endTime.data :: "Default".data :: ([] : List Char) ::
      "0".data :: "0".data :: "0".data :: ([] : List Char) ::
      splitChar ',' (escNL c.text.data) := by
    rw [hdrop]
    rw [splitChar_append_sep _ _ _ (by decide)]
    rw [splitChar_append_sep _ _ _ hT1c]
    rw [splitChar_append_sep _ _ _ hT2c]
    rw [splitChar_append_sep _ _ _ (by decide)]
    rw [splitChar_append_sep _ _ _ (by simp)]
    rw [splitChar_append_sep _ _ _ (by decide)]
    rw [splitChar_append_sep _ _ _ (by decide)]
    rw [splitChar_append_sep _ _ _ (by decide)]
    rw [splitChar_append_sep _ _ _ (by simp)]
  have hcond1 : ¬(trimList (assDialogue c) = "[Events]".data) := by
    rw [hD]
    obtain ⟨r', hr'⟩ := trimList_head 'D' rest0 (by decide)
    rw [hr']
    intro h1
    rw [show ("[Events]".data : List Char) = '[' :: "Events]".data from rfl] at h1
    rw [List.cons.injEq] at h1
    exact absurd h1.1 (by decide)
  have hcond2 : ¬((listStartsWith "[".data (assDialogue c) &&
      ((assDialogue c).getLast? == some ']')) = true) := by
    rw [hD]
    rw [show listStartsWith "[".data ('D' :: rest0) =
        (('[' == 'D') && listStartsWith [] rest0) from rfl]
    simp
  have hcond4 : ¬(listStartsWith "Format:".data (assDialogue c) = true) := by
    rw [hD]
    rw [show listStartsWith "Format:".data ('D' :: rest0) =
        (('F' == 'D') && listStartsWith "ormat:".data rest0) from rfl]
    simp
  have hcond5 : listStartsWith "Dialogue:".data (assDialogue c) = true := by
    rw [hline]
    rfl
  simp only [assStep]
  rw [if_neg hcond1, if_neg hcond2]
  rw [if_neg (by simp)]
  rw [if_neg hcond4, if_pos hcond5]
  rw [hvals]
  rw [show listIdxOf assStdFields "start".data = some 1 from rfl,
      show listIdxOf assStdFields "end".data = some 2 from rfl,
      show listIdxOf assStdFields "text".data = some 9 from rfl]
  simp [trimList_of_no_ws _ (assOutTime_no_ws _ hS),
    trimList_of_no_ws _ (assOutTime_no_ws _ hE), joinSep_splitChar,
    assParseTime_roundtrip _ hS, assParseTime_roundtrip _ hE,
    assOutTime_ne_nil _ hS, assOutTime_ne_nil _ hE]

theorem splitChar_lines (sep : Char) :
    ∀ (ls : List (List Char)) (tail : List Char), (∀ l ∈ ls, sep ∉ l) →
    splitChar sep (ls.foldr (fun l r => l ++ sep :: r) tail) = ls ++ splitChar sep tail
  | [], tail, _ => by simp
  | l :: ls, tail, h => by
    rw [List.foldr_cons]
    rw [splitChar_append_sep _ _ _ (h l (by simp))]
    rw [splitChar_lines sep ls tail (fun x hx => h x (by simp [hx]))]
    rfl

theorem splitChar_joinSep_newline :
    ∀ ds : List (List Char), ds ≠ [] → (∀ d ∈ ds, '\n' ∉ d) →
    splitChar '\n' (joinSep '\n' ds ++ ['\n']) = ds ++ [[]]
  | [], hne, _ => absurd rfl hne
  | [d], _, h => by
    rw [show joinSep '\n' [d] = d from rfl]
    rw [splitChar_append_last]
    rw [splitChar_no_sep _ _ (h d (by simp))]
  | d :: d' :: ds, _, h => by
    rw [show joinSep '\n' (d :: d' :: ds) = d ++ '\n' :: joinSep '\n' (d' :: ds)
      from rfl]
    rw [List.append_assoc]
    rw [show ('\n' :: joinSep '\n' (d' :: ds)) ++ ['\n'] =
        '\n' :: (joinSep '\n' (d' :: ds) ++ ['\n']) from rfl]
    rw [splitChar_append_sep _ _ _ (h d (by simp))]
    rw [splitChar_joinSep_newline (d' :: ds) (by simp)
      (fun x hx => h x (by simp only [List.mem_cons] at hx ⊢; tauto))]
    rfl

theorem joinSep_no_cr (sep : Char) (hsep : sep ≠ '\r') :
    ∀ ds : List (List Char), (∀ d ∈ ds, '\r' ∉ d) → '\r' ∉ joinSep sep ds
  | [], _ => by simp [joinSep]
  | [d], h => by
    rw [show joinSep sep [d] = d from rfl]
    exact h d (by simp)
  | d :: d' :: ds, h => by
    have hrec := joinSep_no_cr sep hsep (d' :: ds)
      (fun x hx => h x (by simp only [List.mem_cons] at hx ⊢; tauto))
    rw [show joinSep sep (d :: d' :: ds) = d ++ sep :: joinSep sep (d' :: ds)
      from rfl]
    intro hm
    rcases List.mem_append.mp hm with hm | hm
    · exact h d (by simp) hm
    · rcases List.mem_cons.mp hm with hm | hm
      · exact hsep hm.symm
      · exact hrec hm

theorem ass_assemble :
    ∀ (subs : List Subtitle), (∀ c ∈ subs, wellformedCaption c = true) →
    ∀ (n : Nat) (acc : List Subtitle),
    (subs.map assDialogue).foldl assStep ⟨true, assStdFields, n, acc⟩ =
      ⟨true, assStdFields, n + subs.length, acc ++ assExpected n subs⟩
  | [], _ => by
    intro n acc
    simp [assExpected]
  | c :: rest, h => by
    intro n acc
    rw [List.map_cons, List.foldl_cons]
    rw [assStep_dialogue c (h c (by simp)) n acc]
    rw [ass_assemble rest (fun x hx => h x (by simp [hx])) (n + 1) _]
    simp only [assExpected, List.length_cons, AssState.mk.injEq]
    refine ⟨trivial, trivial, by omega, by simp⟩

set_option maxRecDepth 8192

theorem parseASS_toASS (subs : List Subtitle)
    (h : ∀ c ∈ subs, wellformedCaption c = true) :
    parseASS (toASS subs) = assExpected 0 subs := by
  cases subs with
  | nil => rfl
  | cons c rest =>
    have hdcr : ∀ d ∈ (c :: rest).map assDialogue, '\r' ∉ d := by
      intro d hd
      rw [List.mem_map] at hd
      obtain ⟨x, hx, rfl⟩ := hd
      obtain ⟨hS, hE, hT⟩ := wellformedCaption_parts x (h x hx)
      obtain ⟨-, -, -, hTcr, -⟩ := goodText_parts _ hT
      exact assDialogue_no_cr x hS hE hTcr
    have hdnl : ∀ d ∈ (c :: rest).map assDialogue, '\n' ∉ d := by
      intro d hd
      rw [List.mem_map] at hd
      obtain ⟨x, hx, rfl⟩ := hd
      obtain ⟨hS, hE, hT⟩ := wellformedCaption_parts x (h x hx)
      exact assDialogue_no_nl x hS hE
    have hnr : '\r' ∉ assHeader.data ++
        joinSep '\n' ((c :: rest).map assDialogue) ++ ['\n'] := by
      intro hm
      rcases List.mem_append.mp hm with hm | hm
      · rcases List.mem_append.mp hm with hm | hm
        · exact absurd hm (by decide)
        · exact joinSep_no_cr '\n' (by decide) _ hdcr hm
      · simp at hm
    have hsplit : ∀ tail : List Char, splitChar '\n' (assHeader.data ++ tail) =
        ("[Script Info]".data :: "Title: Translated Subtitles".data ::
         "ScriptType: v4.00+".data :: "Collisions: Normal".data ::
         "PlayDepth: 0".data :: "".data :: "[V4+ Styles]".data ::
         "Format: Name, Fontname, Fontsize, PrimaryColour, SecondaryColour, OutlineColour, BackColour, Bold, Italic, Underline, StrikeOut, ScaleX, ScaleY, Spacing, Angle, BorderStyle, Outline, Shadow, Alignment, MarginL, MarginR, MarginV, Encoding".data ::
         "Style: Default,Arial,20,&H00FFFFFF,&H000000FF,&H00000000,&H00000000,0,0,0,0,100,100,0,0,1,2,2,2,10,10,10,1".data ::
         "".data :: "[Events]".data ::
         ["Format: Layer, Start, End, Style, Name, MarginL, MarginR, MarginV, Effect, Text".data]) ++
        splitChar '\n' tail := by
      intro tail
      rw [show assHeader.data ++ tail =
          ("[Script Info]".data :: "Title: Translated Subtitles".data ::
           "ScriptType: v4.00+".data :: "Collisions: Normal".data ::
           "PlayDepth: 0".data :: "".data :: "[V4+ Styles]".data ::
           "Format: Name, Fontname, Fontsize, PrimaryColour, SecondaryColour, OutlineColour, BackColour, Bold, Italic, Underline, StrikeOut, ScaleX, ScaleY, Spacing, Angle, BorderStyle, Outline, Shadow, Alignment, MarginL, MarginR, MarginV, Encoding".data ::
           "Style: Default,Arial,20,&H00FFFFFF,&H000000FF,&H00000000,&H00000000,0,0,0,0,100,100,0,0,1,2,2,2,10,10,10,1".data ::
           "".data :: "[Events]".data ::
           ["Format: Layer, Start, End, Style, Name, MarginL, MarginR, MarginV, Effect, Text".data]).foldr
            (fun l r => l ++ '\n' :: r) tail from by rfl]
      exact splitChar_lines '\n' _ tail (by decide)
    unfold parseASS toASS
    rw [show (String.mk (assHeader.data ++
        joinSep '\n' ((c :: rest).map assDialogue) ++ ['\n'])).data =
      assHeader.data ++ joinSep '\n' ((c :: rest).map assDialogue) ++ ['\n']
      from rfl]
    rw [normalizeLineEndings_eq_self _ hnr]
    rw [List.append_assoc]
    rw [hsplit (joinSep '\n' ((c :: rest).map assDialogue) ++ ['\n'])]
    rw [splitChar_joinSep_newline _ (by simp) hdnl]
    rw [List.foldl_append]
    rw [show List.foldl assStep (⟨false, [], 0, []⟩ : AssState)
        ("[Script Info]".data :: "Title: Translated Subtitles".data ::
         "ScriptType: v4.00+".data :: "Collisions: Normal".data ::
         "PlayDepth: 0".data :: "".data :: "[V4+ Styles]".data ::
         "Format: Name, Fontname, Fontsize, PrimaryColour, SecondaryColour, OutlineColour, BackColour, Bold, Italic, Underline, StrikeOut, ScaleX, ScaleY, Spacing, Angle, BorderStyle, Outline, Shadow, Alignment, MarginL, MarginR, MarginV, Encoding".data ::
         "Style: Default,Arial,20,&H00FFFFFF,&H000000FF,&H00000000,&H00000000,0,0,0,0,100,100,0,0,1,2,2,2,10,10,10,1".data ::
         "".data :: "[Events]".data ::
         ["Format: Layer, Start, End, Style, Name, MarginL, MarginR, MarginV, Effect, Text".data]) =
      ⟨true, assStdFields, 0, []⟩ from by rfl]
    rw [List.foldl_append]
    rw [ass_assemble (c :: rest) h 0 []]
    rw [show List.foldl assStep
        (⟨true, assStdFields, 0 + (c :: rest).length,
          [] ++ assExpected 0 (c :: rest)⟩ : AssState) [[]] =
      ⟨true, assStdFields, 0 + (c :: rest).length,
        [] ++ assExpected 0 (c :: rest)⟩ from rfl]
    simp

theorem matchSrtTime_shape (cs t r : List Char) (h : matchSrtTime cs = some (t, r)) :
    isNormTime (replaceFirst '.' ',' t) = true := by
  rw [matchSrtTime.eq_def] at h
  split at h
  · split at h
    · rename_i a b c d e f g h2 i j k l rest hcond
      rw [Option.some.injEq, Prod.mk.injEq] at h
      obtain ⟨ht, -⟩ := h
      subst ht
      simp only [Bool.and_eq_true, beq_iff_eq, Bool.or_eq_true] at hcond
      obtain ⟨⟨⟨⟨⟨⟨⟨⟨⟨⟨⟨ha, hb⟩, hc⟩, hd⟩, he⟩, hf⟩, hg⟩, hh2⟩, hi⟩, hj⟩, hk⟩, hl⟩ :=
        hcond
      subst hc
      subst hf
      have fdot : ∀ x : Char, x.isDigit = true → ¬(x = '.') := fun x hx =>
        digit_ne x '.' hx (by decide)
      rcases hi with rfl | rfl
      · have hnt : isNormTime [a, b, ':', d, e, ':', g, h2, ',', j, k, l] = true := by
          simp [isNormTime, ha, hb, hd, he, hg, hh2, hj, hk, hl]
        rw [replaceFirst_norm _ hnt]
        exact hnt
      · have hrep : replaceFirst '.' ',' [a, b, ':', d, e, ':', g, h2, '.', j, k, l] =
            [a, b, ':', d, e, ':', g, h2, ',', j, k, l] := by
          simp [replaceFirst, fdot a ha, fdot b hb, fdot d hd, fdot e he,
            fdot g hg, fdot h2 hh2]
        rw [hrep]
        simp [isNormTime, ha, hb, hd, he, hg, hh2, hj, hk, hl]
    · cases h
  · cases h

theorem srtPairAt_shape (cs t1 t2 : List Char)
    (h : srtPairAt cs = some (t1, t2)) :
    isNormTime (replaceFirst '.' ',' t1) = true ∧
    isNormTime (replaceFirst '.' ',' t2) = true := by
  unfold srtPairAt at h
  split at h
  · cases h
  · rename_i t1' r1 hm1
    split at h
    · cases h
    · rename_i r2 hm2
      split at h
      · cases h
      · rename_i t2' r3 hm3
        rw [Option.some.injEq, Prod.mk.injEq] at h
        obtain ⟨h1, h2⟩ := h
        subst h1
        subst h2
        exact ⟨matchSrtTime_shape _ _ _ hm1, matchSrtTime_shape _ _ _ hm3⟩

theorem searchTimePair_shape :
    ∀ (cs t1 t2 : List Char), searchTimePair cs = some (t1, t2) →
    isNormTime (replaceFirst '.' ',' t1) = true ∧
    isNormTime (replaceFirst '.' ',' t2) = true
  | [], _, _, h => by cases h
  | c :: cs, t1, t2, h => by
    rw [show searchTimePair (c :: cs) =
        (match srtPairAt (c :: cs) with
         | some r => some r
         | none => searchTimePair cs) from rfl] at h
    cases hp : srtPairAt (c :: cs) with
    | some r =>
      rw [hp] at h
      rw [Option.some.injEq] at h
      subst h
      exact srtPairAt_shape _ _ _ hp
    | none =>
      rw [hp] at h
      exact searchTimePair_shape cs t1 t2 h

theorem parseSRTBlock_shape (b : List Char) (x : Subtitle)
    (h : parseSRTBlock b = some x) :
    isNormTime x.startTime.data = true ∧ isNormTime x.endTime.data = true := by
  simp only [parseSRTBlock] at h
  split at h
  · cases h
  · split at h
    · cases h
    · rename_i idx hidx
      split at h
      · cases h
      · rename_i t1 t2 hpair
        rw [Option.some.injEq] at h
        subst h
        exact searchTimePair_shape _ _ _ hpair

theorem parseSRT_shape (content : String) :
    ∀ x ∈ parseSRT content,
      isNormTime x.startTime.data = true ∧ isNormTime x.endTime.data = true := by
  intro x hx
  unfold parseSRT at hx
  rw [List.mem_filterMap] at hx
  obtain ⟨b, -, hb⟩ := hx
  exact parseSRTBlock_shape b x hb

theorem matchVttTime_shape (cs t r : List Char) (h : matchVttTime cs = some (t, r)) :
    isNormTime (replaceFirst '.' ','
      (if (splitChar ':' t).length = 2 then "00:".data ++ t else t)) = true := by
  have fdot : ∀ x : Char, x.isDigit = true → ¬(x = '.') := fun x hx =>
    digit_ne x '.' hx (by decide)
  have fcol : ∀ x : Char, x.isDigit = true → ¬(x = ':') := fun x hx =>
    digit_ne x ':' hx (by decide)
  unfold matchVttTime at h
  split at h
  · rename_i r' hfull
    rw [Option.some.injEq] at h
    subst h
    rw [matchVttFull.eq_def] at hfull
    split at hfull
    · split at hfull
      · rename_i a b c d e f g h2 i j k l rest hcond
        rw [Option.some.injEq, Prod.mk.injEq] at hfull
        obtain ⟨ht, -⟩ := hfull
        subst ht
        simp only [Bool.and_eq_true, beq_iff_eq] at hcond
        obtain ⟨⟨⟨⟨⟨⟨⟨⟨⟨⟨⟨ha, hb⟩, hc⟩, hd⟩, he⟩, hf⟩, hg⟩, hh2⟩, hi⟩, hj⟩, hk⟩, hl⟩ :=
          hcond
        subst hc
        subst hf
        subst hi
        have hcolon : (splitChar ':' [a, b, ':', d, e, ':', g, h2, '.', j, k, l]).length
            = 3 := by
          simp [splitChar, splitCharAux, fcol a ha, fcol b hb, fcol d hd, fcol e he,
            fcol g hg, fcol h2 hh2, fcol j hj, fcol k hk, fcol l hl]
        rw [hcolon, if_neg (by omega)]
        have hrep : replaceFirst '.' ',' [a, b, ':', d, e, ':', g, h2, '.', j, k, l] =
            [a, b, ':', d, e, ':', g, h2, ',', j, k, l] := by
          simp [replaceFirst, fdot a ha, fdot b hb, fdot d hd, fdot e he,
            fdot g hg, fdot h2 hh2]
        rw [hrep]
        simp [isNormTime, ha, hb, hd, he, hg, hh2, hj, hk, hl]
      · cases hfull
    · cases hfull
  · rename_i hfull
    rw [matchVttShort.eq_def] at h
    split at h
    · split at h
      · rename_i a b c d e f g h2 i rest hcond
        rw [Option.some.injEq, Prod.mk.injEq] at h
        obtain ⟨ht, -⟩ := h
        subst ht
        simp only [Bool.and_eq_true, beq_iff_eq] at hcond
        obtain ⟨⟨⟨⟨⟨⟨⟨⟨ha, hb⟩, hc⟩, hd⟩, he⟩, hf⟩, hg⟩, hh2⟩, hi⟩ := hcond
        subst hc
        subst hf
        have hcolon : (splitChar ':' [a, b, ':', d, e, '.', g, h2, i]).length = 2 := by
          simp [splitChar, splitCharAux, fcol a ha, fcol b hb, fcol d hd, fcol e he,
            fcol g hg, fcol h2 hh2, fcol i hi]
        rw [hcolon, if_pos rfl]
        have hrep : replaceFirst '.' ','
            ("00:".data ++ [a, b, ':', d, e, '.', g, h2, i]) =
            '0' :: '0' :: ':' :: a :: b :: ':' :: d :: e :: ',' :: g :: h2 :: i :: [] := by
          simp [replaceFirst, fdot a ha, fdot b hb, fdot d hd, fdot e he]
        rw [hrep]
        simp [isNormTime, ha, hb, hd, he, hg, hh2, hi]
      · cases h
    · cases h

theorem vttPairAt_shape (cs t1 t2 : List Char)
    (h : vttPairAt cs = some (t1, t2)) :
    (isNormTime (replaceFirst '.' ','
       (if (splitChar ':' t1).length = 2 then "00:".data ++ t1 else t1)) = true) ∧
    (isNormTime (replaceFirst '.' ','
       (if (splitChar ':' t2).length = 2 then "00:".data ++ t2 else t2)) = true) := by
  unfold vttPairAt at h
  split at h
  · cases h
  · rename_i t1' r1 hm1
    split at h
    · cases h
    · rename_i r2 hm2
      split at h
      · cases h
      · rename_i t2' r3 hm3
        rw [Option.some.injEq, Prod.mk.injEq] at h
        obtain ⟨h1, h2⟩ := h
        subst h1
        subst h2
        exact ⟨matchVttTime_shape _ _ _ hm1, matchVttTime_shape _ _ _ hm3⟩

theorem searchVttTimePair_shape :
    ∀ (cs t1 t2 : List Char), searchVttTimePair cs = some (t1, t2) →
    (isNormTime (replaceFirst '.' ','
       (if (splitChar ':' t1).length = 2 then "00:".data ++ t1 else t1)) = true) ∧
    (isNormTime (replaceFirst '.' ','
       (if (splitChar ':' t2).length = 2 then "00:".data ++ t2 else t2)) = true)
  | [], _, _, h => by cases h
  | c :: cs, t1, t2, h => by
    rw [show searchVttTimePair (c :: cs) =
        (match vttPairAt (c :: cs) with
         | some r => some r
         | none => searchVttTimePair cs) from rfl] at h
    cases hp : vttPairAt (c :: cs) with
    | some r =>
      rw [hp] at h
      rw [Option.some.injEq] at h
      subst h
      exact vttPairAt_shape _ _ _ hp
    | none =>
      rw [hp] at h
      exact searchVttTimePair_shape cs t1 t2 h

theorem parseVTTStep_cases (st : Nat × List Subtitle) (b : List Char) :
    parseVTTStep st b = st ∨
    ∃ s t x, isNormTime s.data = true ∧ isNormTime t.data = true ∧
      parseVTTStep st b = (st.1 + 1, st.2 ++
        [{ index := ((st.1 + 1 : Nat) : Int), startTime := s, endTime := t,
           text := x }]) := by
  simp only [parseVTTStep]
  split
  · exact Or.inl rfl
  · split
    · exact Or.inl rfl
    · split
      · exact Or.inl rfl
      · rename_i t1 t2 hpair
        exact Or.inr ⟨_, _, _, (searchVttTimePair_shape _ _ _ hpair).1,
          (searchVttTimePair_shape _ _ _ hpair).2, rfl⟩

theorem vtt_fold_inv :
    ∀ (bs : List (List Char)) (st : Nat × List Subtitle),
    st.2.length = st.1 →
    (∀ k, k < st.2.length → (st.2.getD k default).index = ((k + 1 : Nat) : Int)) →
    (∀ x ∈ st.2, isNormTime x.startTime.data = true ∧
      isNormTime x.endTime.data = true) →
    ((bs.foldl parseVTTStep st).2.length = (bs.foldl parseVTTStep st).1 ∧
     (∀ k, k < (bs.foldl parseVTTStep st).2.length →
       ((bs.foldl parseVTTStep st).2.getD k default).index = ((k + 1 : Nat) : Int)) ∧
     (∀ x ∈ (bs.foldl parseVTTStep st).2,
       isNormTime x.startTime.data = true ∧ isNormTime x.endTime.data = true))
  | [], st, h1, h2, h3 => ⟨h1, h2, h3⟩
  | b :: bs, st, h1, h2, h3 => by
    rw [List.foldl_cons]
    rcases parseVTTStep_cases st b with hstep | ⟨s, t, x, hs, ht, hstep⟩
    · rw [hstep]
      exact vtt_fold_inv bs st h1 h2 h3
    · rw [hstep]
      refine vtt_fold_inv bs _ ?_ ?_ ?_
      · simp [h1]
      · intro k hk
        simp only [List.length_append, List.length_cons, List.length_nil] at hk
        by_cases hlt : k < st.2.length
        · rw [List.getD_append _ _ _ _ hlt]
          exact h2 k hlt
        · have hk2 : k = st.2.length := by omega
          subst hk2
          rw [List.getD_append_right _ _ _ _ (le_refl _)]
          simp [h1]
      · intro y hy
        rcases List.mem_append.mp hy with hy | hy
        · exact h3 y hy
        · rw [List.mem_singleton] at hy
          subst hy
          exact ⟨hs, ht⟩

theorem padStart2_digits (hd : List Char) (h : ∀ x ∈ hd, x.isDigit = true) :
    ∀ x ∈ padStart2 hd, x.isDigit = true := by
  intro x hx
  unfold padStart2 at hx
  split at hx
  · rcases List.mem_append.mp hx with hx | hx
    · rw [List.eq_of_mem_replicate hx]
      decide
    · exact h x hx
  · exact h x hx

theorem padStart2_len (hd : List Char) : 2 ≤ (padStart2 hd).length := by
  unfold padStart2
  split
  · rename_i hlt
    simp only [List.length_append, List.length_replicate]
    omega
  · rename_i hge
    omega

theorem matchAssTimeAt_shape (cs hd m s ms : List Char)
    (h : matchAssTimeAt cs = some (hd, m, s, ms)) :
    (∀ x ∈ hd, x.isDigit = true) ∧
    (∃ m1 m2, m = [m1, m2] ∧ m1.isDigit = true ∧ m2.isDigit = true) ∧
    (∃ s1 s2, s = [s1, s2] ∧ s1.isDigit = true ∧ s2.isDigit = true) ∧
    (∃ c1 c2, ms = [c1, c2] ∧ c1.isDigit = true ∧ c2.isDigit = true) := by
  unfold matchAssTimeAt at h
  split at h
  · cases h
  · rename_i hd' m1 m2 s1 s2 c1 c2 rest heq1 heq2
    split at h
    · rename_i hcond
      simp only [Bool.and_eq_true] at hcond
      obtain ⟨⟨⟨⟨⟨hm1, hm2⟩, hs1⟩, hs2⟩, hc1⟩, hc2⟩ := hcond
      rw [Option.some.injEq, Prod.mk.injEq, Prod.mk.injEq, Prod.mk.injEq] at h
      obtain ⟨h1, h2, h3, h4⟩ := h
      subst h1
      subst h2
      subst h3
      subst h4
      refine ⟨?_, ⟨m1, m2, rfl, hm1, hm2⟩, ⟨s1, s2, rfl, hs1, hs2⟩,
        ⟨c1, c2, rfl, hc1, hc2⟩⟩
      intro x hx
      exact List.mem_takeWhile_imp hx
    · cases h
  · cases h

theorem searchAssTime_shape :
    ∀ (cs hd m s ms : List Char), searchAssTime cs = some (hd, m, s, ms) →
    (∀ x ∈ hd, x.isDigit = true) ∧
    (∃ m1 m2, m = [m1, m2] ∧ m1.isDigit = true ∧ m2.isDigit = true) ∧
    (∃ s1 s2, s = [s1, s2] ∧ s1.isDigit = true ∧ s2.isDigit = true) ∧
    (∃ c1 c2, ms = [c1, c2] ∧ c1.isDigit = true ∧ c2.isDigit = true)
  | [], _, _, _, _, h => by cases h
  | c :: cs, hd, m, s, ms, h => by
    rw [show searchAssTime (c :: cs) =
        (match matchAssTimeAt (c :: cs) with
         | some r => some r
         | none => searchAssTime cs) from rfl] at h
    cases hp : matchAssTimeAt (c :: cs) with
    | some r =>
      rw [hp] at h
      rw [Option.some.injEq] at h
      subst h
      exact matchAssTimeAt_shape _ _ _ _ _ hp
    | none =>
      rw [hp] at h
      exact searchAssTime_shape cs hd m s ms h

theorem assParseTime_shape (t : List Char) :
    isAssOutTime (assParseTime t) = true := by
  cases hs : searchAssTime t with
  | none =>
    have hred : assParseTime t = "00:00:00,000".data := by
      unfold assParseTime
      rw [hs]
    rw [hred]
    decide
  | some r =>
    obtain ⟨hd, m, s, ms⟩ := r
    obtain ⟨hdig, ⟨m1, m2, rfl, hm1, hm2⟩, ⟨s1, s2, rfl, hs1, hs2⟩,
      ⟨c1, c2, rfl, hc1, hc2⟩⟩ := searchAssTime_shape t _ _ _ _ hs
    have hred : assParseTime t =
        padStart2 hd ++ ':' :: [m1, m2] ++ ':' :: [s1, s2] ++ ',' :: [c1, c2] ++
          ['0'] := by
      unfold assParseTime
      rw [hs]
    rw [hred]
    have hflat : padStart2 hd ++ ':' :: [m1, m2] ++ ':' :: [s1, s2] ++
        ',' :: [c1, c2] ++ ['0'] =
        padStart2 hd ++
          ':' :: (m1 :: m2 :: ':' :: s1 :: s2 :: ',' :: c1 :: c2 :: ['0']) := by
      simp
    rw [hflat]
    unfold isAssOutTime
    have hb := takeWhile_digit_boundary ':'
      (m1 :: m2 :: ':' :: s1 :: s2 :: ',' :: c1 :: c2 :: ['0']) (by decide)
      (padStart2 hd) (padStart2_digits hd hdig)
    rw [hb.1, hb.2]
    simp [hm1, hm2, hs1, hs2, hc1, hc2, padStart2_len hd]

theorem assStep_cases (st : AssState) (line : List Char) :
    ((assStep st line).count = st.count ∧ (assStep st line).acc = st.acc) ∨
    ∃ s t x, isAssOutTime s.data = true ∧ isAssOutTime t.data = true ∧
      (assStep st line).count = st.count + 1 ∧
      (assStep st line).acc = st.acc ++
        [{ index := ((st.count + 1 : Nat) : Int),
           startTime := s, endTime := t, text := x }] := by
  simp only [assStep]
  split
  · exact Or.inl ⟨rfl, rfl⟩
  · split
    · exact Or.inl ⟨rfl, rfl⟩
    · split
      · exact Or.inl ⟨rfl, rfl⟩
      · split
        · exact Or.inl ⟨rfl, rfl⟩
        · split
          · split
            all_goals try exact Or.inl ⟨rfl, rfl⟩
            split
            all_goals try exact Or.inl ⟨rfl, rfl⟩
            split
            · exact Or.inl ⟨rfl, rfl⟩
            · exact Or.inr ⟨_, _, _, assParseTime_shape _, assParseTime_shape _,
                rfl, rfl⟩
          · exact Or.inl ⟨rfl, rfl⟩

theorem ass_fold_inv :
    ∀ (ls : List (List Char)) (st : AssState),
    st.acc.length = st.count →
    (∀ k, k < st.acc.length → (st.acc.getD k default).index = ((k + 1 : Nat) : Int)) →
    (∀ x ∈ st.acc, isAssOutTime x.startTime.data = true ∧
      isAssOutTime x.endTime.data = true) →
    ((ls.foldl assStep st).acc.length = (ls.foldl assStep st).count ∧
     (∀ k, k < (ls.foldl assStep st).acc.length →
       ((ls.foldl assStep st).acc.getD k default).index = ((k + 1 : Nat) : Int)) ∧
     (∀ x ∈ (ls.foldl assStep st).acc,
       isAssOutTime x.startTime.data = true ∧ isAssOutTime x.endTime.data = true))
  | [], st, h1, h2, h3 => ⟨h1, h2, h3⟩
  | l :: ls, st, h1, h2, h3 => by
    rw [List.foldl_cons]
    rcases assStep_cases st l with ⟨hcnt, hacc⟩ | ⟨s, t, x, hs, ht, hcnt, hacc⟩
    · refine ass_fold_inv ls _ ?_ ?_ ?_
      · rw [hcnt, hacc]
        exact h1
      · rw [hacc]
        exact h2
      · rw [hacc]
        exact h3
    · refine ass_fold_inv ls _ ?_ ?_ ?_
      · rw [hcnt, hacc]
        simp [h1]
      · rw [hacc]
        intro k hk
        simp only [List.length_append, List.length_cons, List.length_nil] at hk
        by_cases hlt : k < st.acc.length
        · rw [List.getD_append _ _ _ _ hlt]
          exact h2 k hlt
        · have hk2 : k = st.acc.length := by omega
          subst hk2
          rw [List.getD_append_right _ _ _ _ (le_refl _)]
          simp [h1]
      · rw [hacc]
        intro y hy
        rcases List.mem_append.mp hy with hy | hy
        · exact h3 y hy
        · rw [List.mem_singleton] at hy
          subst hy
          exact ⟨hs, ht⟩

theorem srtExpected_len : ∀ (i : Nat) (subs : List Subtitle),
    (srtExpected i subs).length = subs.length
  | _, [] => rfl
  | i, c :: rest => by
    simp only [srtExpected, List.length_cons]
    rw [srtExpected_len (i + 1) rest]

theorem srtExpected_times : ∀ (i : Nat) (subs : List Subtitle),
    (srtExpected i subs).map Subtitle.startTime = subs.map Subtitle.startTime ∧
    (srtExpected i subs).map Subtitle.endTime = subs.map Subtitle.endTime
  | _, [] => ⟨rfl, rfl⟩
  | i, c :: rest => by
    simp only [srtExpected, List.map_cons]
    obtain ⟨h1, h2⟩ := srtExpected_times (i + 1) rest
    rw [h1, h2]
    exact ⟨rfl, rfl⟩

theorem vttExpected_len : ∀ (n : Nat) (subs : List Subtitle),
    (vttExpected n subs).length = subs.length
  | _, [] => rfl
  | n, c :: rest => by
    simp only [vttExpected, List.length_cons]
    rw [vttExpected_len (n + 1) rest]

theorem vttExpected_times : ∀ (n : Nat) (subs : List Subtitle),
    (vttExpected n subs).map Subtitle.startTime = subs.map Subtitle.startTime ∧
    (vttExpected n subs).map Subtitle.endTime = subs.map Subtitle.endTime
  | _, [] => ⟨rfl, rfl⟩
  | n, c :: rest => by
    simp only [vttExpected, List.map_cons]
    obtain ⟨h1, h2⟩ := vttExpected_times (n + 1) rest
    rw [h1, h2]
    exact ⟨rfl, rfl⟩

theorem assExpected_len : ∀ (n : Nat) (subs : List Subtitle),
    (assExpected n subs).length = subs.length
  | _, [] => rfl
  | n, c :: rest => by
    simp only [assExpected, List.length_cons]
    rw [assExpected_len (n + 1) rest]

theorem assExpected_times : ∀ (n : Nat) (subs : List Subtitle),
    (assExpected n subs).map Subtitle.startTime =
      subs.map (fun c => String.mk (c.startTime.data.take 11 ++ ['0'])) ∧
    (assExpected n subs).map Subtitle.endTime =
      subs.map (fun c => String.mk (c.endTime.data.take 11 ++ ['0']))
  | _, [] => ⟨rfl, rfl⟩
  | n, c :: rest => by
    simp only [assExpected, List.map_cons]
    obtain ⟨h1, h2⟩ := assExpected_times (n + 1) rest
    rw [h1, h2]
    exact ⟨rfl, rfl⟩

/-- **C5** (corrected).  For caption sequences whose timestamps are in the
normalized `HH:MM:SS,mmm` shape and whose text survives blank-line block
framing (`wellformedCaption`), serialize-then-parse in the same format
preserves the sequence length, preserves SubRip and WebVTT timestamps
exactly, and truncates AdvancedSubStation timestamps to centiseconds (the
first eleven characters plus an appended zero).  The unrestricted claim is
refuted by `roundtrip_empty_text_counterexample`. -/
theorem roundtrip_wellformed_amended (subs : List Subtitle)
    (h : ∀ c ∈ subs, wellformedCaption c = true) :
    (∀ fmt : SubtitleFormat,
      (parse (serialize subs fmt) fmt).length = subs.length) ∧
    ((parse (serialize subs SubtitleFormat.srt) SubtitleFormat.srt).map
        Subtitle.startTime = subs.map Subtitle.startTime ∧
     (parse (serialize subs SubtitleFormat.srt) SubtitleFormat.srt).map
        Subtitle.endTime = subs.map Subtitle.endTime) ∧
    ((parse (serialize subs SubtitleFormat.vtt) SubtitleFormat.vtt).map
        Subtitle.startTime = subs.map Subtitle.startTime ∧
     (parse (serialize subs SubtitleFormat.vtt) SubtitleFormat.vtt).map
        Subtitle.endTime = subs.map Subtitle.endTime) ∧
    ((parse (serialize subs SubtitleFormat.ass) SubtitleFormat.ass).map
        Subtitle.startTime =
        subs.map (fun c => String.mk (c.startTime.data.take 11 ++ ['0'])) ∧
     (parse (serialize subs SubtitleFormat.ass) SubtitleFormat.ass).map
        Subtitle.endTime =
        subs.map (fun c => String.mk (c.endTime.data.take 11 ++ ['0']))) := by
  have hsrt : parse (serialize subs SubtitleFormat.srt) SubtitleFormat.srt =
      srtExpected 0 subs := parseSRT_toSRT subs h
  have hvtt : parse (serialize subs SubtitleFormat.vtt) SubtitleFormat.vtt =
      vttExpected 0 subs := parseVTT_toVTT subs h
  have hass : parse (serialize subs SubtitleFormat.ass) SubtitleFormat.ass =
      assExpected 0 subs := parseASS_toASS subs h
  refine ⟨?_, ?_, ?_, ?_⟩
  · intro fmt
    cases fmt with
    | srt => rw [hsrt, srtExpected_len]
    | vtt => rw [hvtt, vttExpected_len]
    | ass => rw [hass, assExpected_len]
  · rw [hsrt]
    exact srtExpected_times 0 subs
  · rw [hvtt]
    exact vttExpected_times 0 subs
  · rw [hass]
    exact assExpected_times 0 subs

/-- **C5** counterexample.  A caption with empty text serializes to a SubRip
block with fewer than three non-blank lines, which `parseSRT` drops: the
round-trip loses the caption, so length is not preserved for arbitrary
caption sequences. -/
theorem roundtrip_empty_text_counterexample :
    (parse (serialize [demoEmptyText] SubtitleFormat.srt)
      SubtitleFormat.srt).length ≠ [demoEmptyText].length := by decide

/-- **C5** witness: the five-caption demo sequence is well-formed and its
SubRip round-trip preserves the length. -/
theorem roundtrip_wellformed_amended_witness :
    (∀ c ∈ demo5, wellformedCaption c = true) ∧
    (parse (serialize demo5 SubtitleFormat.srt) SubtitleFormat.srt).length =
      demo5.length :=
  ⟨by decide, (roundtrip_wellformed_amended demo5 (by decide)).1 SubtitleFormat.srt⟩

/-- **C8** (corrected).  `parseVTT` and `parseASS` assign each caption's
`index` as its 1-based position in the returned sequence, for every input
text.  `parseSRT` does not: it copies the cue identifier from the input
(`parse_trusted_index_counterexample`). -/
theorem parse_index_positional_amended (content : String) :
    (∀ k, k < (parse content SubtitleFormat.vtt).length →
      ((parse content SubtitleFormat.vtt).getD k default).index =
        ((k + 1 : Nat) : Int)) ∧
    (∀ k, k < (parse content SubtitleFormat.ass).length →
      ((parse content SubtitleFormat.ass).getD k default).index =
        ((k + 1 : Nat) : Int)) := by
  constructor
  · rw [show parse content SubtitleFormat.vtt = parseVTT content from rfl]
    unfold parseVTT
    exact (vtt_fold_inv _ (0, []) rfl (by intro k hk; simp at hk)
      (by intro x hx; simp at hx)).2.1
  · rw [show parse content SubtitleFormat.ass = parseASS content from rfl]
    unfold parseASS
    exact (ass_fold_inv _ ⟨false, [], 0, []⟩ rfl (by intro k hk; simp at hk)
      (by intro x hx; simp at hx)).2.1

/-- **C8** counterexample.  On a SubRip input whose single cue carries the
identifier `5`, `parse` returns a first caption with `index = 5`, not the
1-based position `1`: `parseSRT` trusts the input identifier. -/
theorem parse_trusted_index_counterexample :
    0 < (parse demoSrtTrusted SubtitleFormat.srt).length ∧
    ((parse demoSrtTrusted SubtitleFormat.srt).getD 0 default).index ≠
      ((0 + 1 : Nat) : Int) := by decide

/-- **C8** witness: on the big-hour AdvancedSubStation demo input, the first
parsed caption's index is its 1-based position. -/
theorem parse_index_positional_amended_witness :
    0 < (parse demoAssBigHour SubtitleFormat.ass).length ∧
    ((parse demoAssBigHour SubtitleFormat.ass).getD 0 default).index =
      ((0 + 1 : Nat) : Int) :=
  ⟨by decide, (parse_index_positional_amended demoAssBigHour).2 0 (by decide)⟩

/-- **C10** (corrected).  For every input text, `parseSRT` and `parseVTT`
emit timestamps in the normalized `HH:MM:SS,mmm` comma shape, but `parseASS`
only guarantees the weaker shape `isAssOutTime`: an hour field of two *or
more* digits (its `formatTime` pads short hours but does not truncate long
ones), then `:MM:SS,` and three digits.  The two-digit-hour claim for
`parseASS` is refuted by `parse_big_hour_counterexample`. -/
theorem parse_time_shape_amended (content : String) :
    (∀ x ∈ parse content SubtitleFormat.srt,
      isNormTime x.startTime.data = true ∧ isNormTime x.endTime.data = true) ∧
    (∀ x ∈ parse content SubtitleFormat.vtt,
      isNormTime x.startTime.data = true ∧ isNormTime x.endTime.data = true) ∧
    (∀ x ∈ parse content SubtitleFormat.ass,
      isAssOutTime x.startTime.data = true ∧ isAssOutTime x.endTime.data = true) := by
  refine ⟨?_, ?_, ?_⟩
  · rw [show parse content SubtitleFormat.srt = parseSRT content from rfl]
    exact parseSRT_shape content
  · rw [show parse content SubtitleFormat.vtt = parseVTT content from rfl]
    unfold parseVTT
    exact (vtt_fold_inv _ (0, []) rfl (by intro k hk; simp at hk)
      (by intro x hx; simp at hx)).2.2
  · rw [show parse content SubtitleFormat.ass = parseASS content from rfl]
    unfold parseASS
    exact (ass_fold_inv _ ⟨false, [], 0, []⟩ rfl (by intro k hk; simp at hk)
      (by intro x hx; simp at hx)).2.2

/-- **C10** counterexample.  An AdvancedSubStation dialogue with a
three-digit hour parses to the timestamp `100:00:00,000`, which is not in
the claimed `HH:MM:SS,mmm` shape. -/
theorem parse_big_hour_counterexample :
    0 < (parse demoAssBigHour SubtitleFormat.ass).length ∧
    isNormTime ((parse demoAssBigHour SubtitleFormat.ass).getD 0
      default).startTime.data = false := by decide

/-- **C10** witness: the first caption parsed from the big-hour demo input
satisfies the amended AdvancedSubStation timestamp shape. -/
theorem parse_time_shape_amended_witness :
    ((parse demoAssBigHour SubtitleFormat.ass).getD 0 default) ∈
      parse demoAssBigHour SubtitleFormat.ass ∧
    isAssOutTime ((parse demoAssBigHour SubtitleFormat.ass).getD 0
      default).startTime.data = true :=
  ⟨by decide, ((parse_time_shape_amended demoAssBigHour).2.2 _ (by decide)).1⟩
